import Mathlib

/-!
Shallow embedding of the CUDA backend code generator of `src/src/Backend/CUDA.cc`
(repository KernelCodeGen).  The generator lowers a tree of affine/parallel IR
nodes to CUDA source text.  Values are modelled as natural numbers (MLIR values
are compared by identity), the global symbol table `valueNameMap` as a function
`Nat → Option String`, and the global text buffer / counters as an explicit
state record.  C++ `assert` failures (process aborts) are modelled as `none`.
The iteration order of the `std::map` `outsidesVars` (keyed by opaque pointer
values, so unspecified from the input's point of view) is modelled by an oracle
`io` that permutes the association list before the `std::sort` call at the end
of `collectVars`.
-/

namespace KernelCodeGen

/-- Memory spaces of a MemRef (`enum.h`: `MemorySpace::{global, shared, local}`). -/
inductive MemSpace where
  | global
  | shared
  | local
deriving DecidableEq, Repr

/-- Scalar element types the generator prints (`toCStr`, CUDA.cc lines 13-20). -/
inductive ScalarT where
  | f16
  | f32
  | f64
  | int
  | index
deriving DecidableEq, Repr

/-- A MemRef type: element type, declared shape (outermost first), memory space. -/
structure MemRefT where
  elem : ScalarT
  shape : List Int
  space : MemSpace
deriving DecidableEq, Repr

/-- Affine expressions (`mlir::AffineExpr`): dimension positions, integer
constants and the five binary kinds handled at CUDA.cc lines 409-433. -/
inductive AffExpr where
  | dim (i : Nat)
  | cst (v : Int)
  | add (l r : AffExpr)
  | mul (l r : AffExpr)
  | floorDiv (l r : AffExpr)
  | ceilDiv (l r : AffExpr)
  | mod (l r : AffExpr)
deriving DecidableEq, Repr

/-- `mlir::gpu::ShuffleMode`; `up` stands for any mode other than DOWN/IDX,
which falls into the `default` branch at CUDA.cc line 403. -/
inductive ShuffleMode where
  | down
  | idx
  | up
deriving DecidableEq, Repr

/-- `mlir::arith::CmpFPredicate`; `olt` stands for any predicate other than
OEQ/OGT, for which the switch at CUDA.cc lines 545-556 emits nothing. -/
inductive CmpPred where
  | oeq
  | ogt
  | olt
deriving DecidableEq, Repr

/-- Operation payloads, one constructor per op kind that appears in CUDA.cc.
Result and operand values are identities (`Nat`).  `otherOp` stands for any
op kind the generator has no case for.  Container ops (`forOp`, `ifOp`,
`parallelOp`) carry their body separately in `Node`. -/
inductive Op where
  | allocOp (result : Nat)
  | constIndexOp (result : Nat) (v : Int)
  | constFloatOp (result : Nat) (ty : ScalarT) (lit : String)
  | constIntOp (result : Nat) (ty : ScalarT) (v : Int)
  | mulFOp (result l r : Nat)
  | addFOp (result l r : Nat)
  | maxFOp (result l r : Nat)
  | subFOp (result l r : Nat)
  | divFOp (result l r : Nat)
  | powFOp (result l r : Nat)
  | cmpFOp (pred : CmpPred) (result l r : Nat)
  | tanhOp (result x : Nat)
  | sqrtOp (result x : Nat)
  | logOp (result x : Nat)
  | expOp (result x : Nat)
  | bitcastOp (result : Nat) (ty : ScalarT) (x : Nat)
  | barrierOp
  | shuffleOp (mode : ShuffleMode) (result v off w : Nat)
  | applyOp (result : Nat) (exprs : List AffExpr) (operands : List Nat)
  | loadOp (result mem : Nat) (exprs : List AffExpr) (operands : List Nat)
  | memLoadOp (result mem : Nat) (indices : List Nat)
  | storeOp (mem val : Nat) (exprs : List AffExpr) (operands : List Nat)
  | vecLoadOp (result mem : Nat) (vecLen : Int) (vecElem : ScalarT)
      (exprs : List AffExpr) (operands : List Nat)
  | vecStoreOp (mem val : Nat) (vecLen : Int) (vecElem : ScalarT)
      (exprs : List AffExpr) (operands : List Nat)
  | forOp (iv : Nat) (lb ub step : Int) (unroll : Bool)
  | ifOp (constraints : List (AffExpr × Bool)) (operands : List Nat)
  | parallelOp (ivs : List Nat)
  | yieldOp
  | otherOp (name : String)
deriving DecidableEq, Repr

/-- An IR node: an op together with the ops of its (single) region.  Only the
three container kinds actually own a non-empty body in well-formed input. -/
inductive Node where
  | mk (op : Op) (body : List Node)

/-- The op of a node. -/
def Node.op : Node → Op
  | .mk o _ => o

/-- The body of a node. -/
def Node.body : Node → List Node
  | .mk _ b => b

mutual

/-- Pre-order walk of a node (the node itself first, then its body), matching
`node.walk<mlir::WalkOrder::PreOrder>`. -/
def preorder : Node → List Node
  | .mk o b => .mk o b :: preorderL b

/-- Pre-order walk of a list of sibling nodes. -/
def preorderL : List Node → List Node
  | [] => []
  | n :: ns => preorder n ++ preorderL ns

end

/-- The symbol table `valueNameMap`, value identity → generated name. -/
abbrev Names := Nat → Option String

/-- The generation-scoped global state: `kernelCounter`, `varCounter`,
`valueNameMap` and the `source` text buffer (CUDA.cc lines 22-52). -/
structure St where
  kernelCounter : Nat
  varCounter : Nat
  names : Names
  buf : String

/-- `setValueName` (CUDA.cc lines 64-70): if the value already has a name it
logs and returns `false` leaving the map unchanged; otherwise it inserts. -/
def setValueName (names : Names) (v : Nat) (name : String) : Bool × Names :=
  if (names v).isSome then
    (false, names)
  else
    (true, fun u => if u = v then some name else names u)

/-- `getValueName` (CUDA.cc lines 72-78): absent values log and yield the
sentinel string `"false"`. -/
def getValueName (names : Names) (v : Nat) : String :=
  (names v).getD "false"

/-- `toCStr` (CUDA.cc lines 13-20). -/
def toCStr : ScalarT → String
  | .f16 => "half_t"
  | .f32 => "float"
  | .f64 => "double"
  | .int => "int"
  | .index => "int"

/-- Spaces matching the current indentation level (`indent()`, two spaces per
level). -/
def indentStr (n : Nat) : String :=
  String.join (List.replicate n "  ")

/-- `varDeclear` (CUDA.cc lines 150-180): declaration text of a memref-typed
value; global memrefs become a single-level pointer, shared/local memrefs a
native array with one `[dim]` suffix per dimension, shared ones prefixed with
`__shared__`.  The value's memref type comes from the IR graph, modelled by
`tyOf`. -/
def varDeclear (tyOf : Nat → MemRefT) (names : Names) (v : Nat) : String :=
  let t := tyOf v
  (if t.space = MemSpace.shared then "__shared__ " else "")
    ++ toCStr t.elem
    ++ (if t.space = MemSpace.global then
          "*" ++ " " ++ getValueName names v
        else
          " " ++ getValueName names v
            ++ String.join (t.shape.map (fun d => "[" ++ toString d ++ "]")))

/-- Sequential write-once naming: process `(value, name)` pairs in order with
`setValueName` (which never overwrites). -/
def assignAll (ps : List (Nat × String)) (names : Names) : Names :=
  ps.foldl (fun ns p => (setValueName ns p.1 p.2).2) names

/-- The `(value, name)` pairs produced for the induction variables of one
parallel op: operand `i` of `n` gets suffix `int3str[n - i - 1]` from
`{"x","y","z"}` (CUDA.cc lines 187-203). -/
def ivPairsOf (pfx : String) (ivs : List Nat) : List (Nat × String) :=
  ivs.enum.map (fun p => (p.2, pfx ++ ["x", "y", "z"].getD (ivs.length - p.1 - 1) ""))

/-- Pre-order list of the induction-variable lists of all parallel ops in the
walk of `node` (the walk visits `node` itself first). -/
def parallelIVsList (node : Node) : List (List Nat) :=
  (preorder node).filterMap (fun n =>
    match n.op with
    | .parallelOp ivs => some ivs
    | _ => none)

/-- Pre-order list of the parallel ops themselves in the walk of `node`. -/
def parallelIVsListNodes (node : Node) : List Node :=
  (preorder node).filter (fun n =>
    match n.op with
    | .parallelOp _ => true
    | _ => false)

/-- Naming pass 1 (CUDA.cc lines 191-203): the walk root (`parallelOp == node`,
the first parallel op of the pre-order walk when `node` is a parallel op) gets
prefix `blockIdx.`, every nested parallel op gets `threadIdx.`. -/
def pass1 (node : Node) (names : Names) : Names :=
  match parallelIVsList node with
  | [] => names
  | root :: rest =>
      rest.foldl (fun ns ivs => assignAll (ivPairsOf "threadIdx." ivs) ns)
        (assignAll (ivPairsOf "blockIdx." root) names)

/-- A counter-driven naming pass: value number `i` of the walk gets name
`mk i`; the counter advances even when `setValueName` refuses (the C++
increments inside the argument expression). -/
def namePass (mk : Nat → String) (vs : List Nat) (names : Names) : Names :=
  assignAll (vs.enum.map (fun p => (p.2, mk p.1))) names

/-- Pre-order induction variables of all `AffineForOp`s in the walk. -/
def forIVs (node : Node) : List Nat :=
  (preorder node).filterMap (fun n =>
    match n.op with
    | .forOp iv _ _ _ _ => some iv
    | _ => none)

/-- Pre-order results of all `AffineApplyOp`s in the walk. -/
def applyResults (node : Node) : List Nat :=
  (preorder node).filterMap (fun n =>
    match n.op with
    | .applyOp r _ _ => some r
    | _ => none)

/-- Pre-order results of all `memref::AllocOp`s in the walk. -/
def allocResults (node : Node) : List Nat :=
  (preorder node).filterMap (fun n =>
    match n.op with
    | .allocOp r => some r
    | _ => none)

/-- Pre-order `(memref operand, result list)` items of all
`AffineVectorLoadOp`s in the walk. -/
def vecLoadItems (node : Node) : List (Nat × List Nat) :=
  (preorder node).filterMap (fun n =>
    match n.op with
    | .vecLoadOp r mem _ _ _ _ => some (mem, [r])
    | _ => none)

/-- Pre-order `(memref operand, result list)` items of all `AffineLoadOp`s. -/
def affLoadItems (node : Node) : List (Nat × List Nat) :=
  (preorder node).filterMap (fun n =>
    match n.op with
    | .loadOp r mem _ _ => some (mem, [r])
    | _ => none)

/-- Pre-order `(memref operand, result list)` items of all `memref::LoadOp`s. -/
def memLoadItems (node : Node) : List (Nat × List Nat) :=
  (preorder node).filterMap (fun n =>
    match n.op with
    | .memLoadOp r mem _ => some (mem, [r])
    | _ => none)

/-- Pre-order memref operands of all `AffineStoreOp`s. -/
def affStoreMems (node : Node) : List Nat :=
  (preorder node).filterMap (fun n =>
    match n.op with
    | .storeOp mem _ _ _ => some mem
    | _ => none)

/-- Pre-order memref operands of all `AffineVectorStoreOp`s. -/
def vecStoreMems (node : Node) : List Nat :=
  (preorder node).filterMap (fun n =>
    match n.op with
    | .vecStoreOp mem _ _ _ _ _ => some mem
    | _ => none)

/-- Pre-order results of all constant ops, in the kind order index, float, int
(CUDA.cc lines 290-302) — the three walks share one counter. -/
def constResults (node : Node) : List Nat :=
  (preorder node).filterMap (fun n =>
    match n.op with
    | .constIndexOp r _ => some r
    | _ => none)
  ++ (preorder node).filterMap (fun n =>
    match n.op with
    | .constFloatOp r _ _ => some r
    | _ => none)
  ++ (preorder node).filterMap (fun n =>
    match n.op with
    | .constIntOp r _ _ => some r
    | _ => none)

/-- Pre-order results of the arithmetic/math/bitcast/shuffle ops in the fixed
kind order of CUDA.cc lines 304-368 (mul, add, max, sub, div, exp, pow, cmp,
tanh, sqrt, log, bitcast, shuffle), all sharing one `temp` counter. -/
def tempResults (node : Node) : List Nat :=
  ((preorder node).filterMap (fun n =>
    match n.op with
    | .mulFOp r _ _ => some r
    | _ => none))
  ++ ((preorder node).filterMap (fun n =>
    match n.op with
    | .addFOp r _ _ => some r
    | _ => none))
  ++ ((preorder node).filterMap (fun n =>
    match n.op with
    | .maxFOp r _ _ => some r
    | _ => none))
  ++ ((preorder node).filterMap (fun n =>
    match n.op with
    | .subFOp r _ _ => some r
    | _ => none))
  ++ ((preorder node).filterMap (fun n =>
    match n.op with
    | .divFOp r _ _ => some r
    | _ => none))
  ++ ((preorder node).filterMap (fun n =>
    match n.op with
    | .expOp r _ => some r
    | _ => none))
  ++ ((preorder node).filterMap (fun n =>
    match n.op with
    | .powFOp r _ _ => some r
    | _ => none))
  ++ ((preorder node).filterMap (fun n =>
    match n.op with
    | .cmpFOp _ r _ _ => some r
    | _ => none))
  ++ ((preorder node).filterMap (fun n =>
    match n.op with
    | .tanhOp r _ => some r
    | _ => none))
  ++ ((preorder node).filterMap (fun n =>
    match n.op with
    | .sqrtOp r _ => some r
    | _ => none))
  ++ ((preorder node).filterMap (fun n =>
    match n.op with
    | .logOp r _ => some r
    | _ => none))
  ++ ((preorder node).filterMap (fun n =>
    match n.op with
    | .bitcastOp r _ _ => some r
    | _ => none))
  ++ ((preorder node).filterMap (fun n =>
    match n.op with
    | .shuffleOp _ r _ _ _ => some r
    | _ => none))

/-- Local state of the free-variable capturing passes of `collectVars`:
the global `varCounter` (for `getArgName`), the symbol table, and the
`outsidesVars` entries in insertion (`id`) order. -/
structure CSt where
  varCounter : Nat
  names : Names
  captured : List Nat

/-- The free-variable capture step (CUDA.cc lines 228-234 and its four
copies): a memref operand that has no name yet and is not yet recorded is
recorded in `outsidesVars` with the next `id` and named `arg<varCounter>`. -/
def captureOne (cs : CSt) (mem : Nat) : CSt :=
  if (cs.names mem).isSome then
    cs
  else if cs.captured.contains mem then
    cs
  else
    { varCounter := cs.varCounter + 1,
      names := (setValueName cs.names mem ("arg" ++ toString cs.varCounter)).2,
      captured := cs.captured ++ [mem] }

/-- Result naming with a pass-local counter (the counter advances per result,
even when `setValueName` refuses). -/
def nameResults (mk : Nat → String) (p : Names × Nat) (rs : List Nat) : Names × Nat :=
  rs.foldl (fun q r => ((setValueName q.1 r (mk q.2)).2, q.2 + 1)) p

/-- One load/store op of a capturing pass: capture the memref operand, then
name the op's results. -/
def capItem (mk : Nat → String) (p : CSt × Nat) (item : Nat × List Nat) : CSt × Nat :=
  let cs1 := captureOne p.1 item.1
  let q := nameResults mk (cs1.names, p.2) item.2
  (⟨cs1.varCounter, q.1, cs1.captured⟩, q.2)

/-- One whole capturing pass (one `node.walk` of CUDA.cc lines 226-288). -/
def capturePass (mk : Nat → String) (items : List (Nat × List Nat)) (p : CSt × Nat) :
    CSt × Nat :=
  items.foldl (capItem mk) p

/-- Naming passes 1-4 of `collectVars` (CUDA.cc lines 191-224): parallel
induction variables, loop induction variables (`iter`), apply results
(`expr`), alloc results (`array`). -/
def namesPrefix (node : Node) (ns : Names) : Names :=
  namePass (fun c => "array" ++ toString c) (allocResults node)
    (namePass (fun c => "expr" ++ toString c) (applyResults node)
      (namePass (fun c => "iter" ++ toString c) (forIVs node) (pass1 node ns)))

/-- The five free-variable capturing passes of `collectVars` (CUDA.cc lines
226-288): vector loads, affine loads, plain loads (sharing the `R` counter
with affine loads), affine stores, vector stores. -/
def captureAll (node : Node) (vc : Nat) (n4 : Names) : CSt :=
  let p5 := capturePass (fun c => "vec" ++ toString c) (vecLoadItems node)
    (⟨vc, n4, []⟩, 0)
  let p6a := capturePass (fun c => "R" ++ toString c) (affLoadItems node) (p5.1, 0)
  let p6b := capturePass (fun c => "R" ++ toString c) (memLoadItems node) (p6a.1, p6a.2)
  let p7a := capturePass (fun _ => "") ((affStoreMems node).map (fun m => (m, []))) (p6b.1, 0)
  let p7b := capturePass (fun _ => "") ((vecStoreMems node).map (fun m => (m, []))) (p7a.1, 0)
  p7b.1

/-- `collectVars` (CUDA.cc lines 185-379): the nine naming passes followed by
constant and temp naming, and the `outsidesVars` finalisation.  `io` models
the unspecified iteration order of the pointer-keyed `std::map outsidesVars`
at lines 370-373: it permutes the `(value, id)` association list before the
`std::sort` by `id` at lines 374-377 (modelled by `insertionSort`, one
correct comparison sort — the `id` keys are pairwise distinct, so every
comparison sort produces the same list).  Returns the sorted captured list
and the updated global state. -/
def collectVars (io : List (Nat × Nat) → List (Nat × Nat)) (node : Node) (st : St) :
    List Nat × St :=
  let cs := captureAll node st.varCounter (namesPrefix node st.names)
  let n8 := namePass (fun c => "const" ++ toString c ++ "th") (constResults node) cs.names
  let n9 := namePass (fun c => "temp" ++ toString c) (tempResults node) n8
  let pairs := cs.captured.enum.map (fun q => (q.2, q.1))
  let sorted := List.insertionSort (fun a b => a.2 ≤ b.2) (io pairs)
  (sorted.map Prod.fst,
   { st with varCounter := cs.varCounter, names := n9 })

/-- `codegen(mlir::AffineExpr, operands)` (CUDA.cc lines 409-433): renders an
affine expression over the looked-up operand names.  The `val >= 10240` branch
appends the empty string, i.e. is identical to the plain decimal rendering. -/
def renderExpr (names : Names) (operands : List Nat) : AffExpr → String
  | .dim i => getValueName names (operands.getD i 0)
  | .cst v => toString v
  | .add l r =>
      "(" ++ renderExpr names operands l ++ " + " ++ renderExpr names operands r ++ ")"
  | .ceilDiv l r =>
      "((" ++ renderExpr names operands l ++ " + " ++ renderExpr names operands r
        ++ " - 1)" ++ " / " ++ renderExpr names operands r ++ ")"
  | .floorDiv l r =>
      "(" ++ renderExpr names operands l ++ " / " ++ renderExpr names operands r ++ ")"
  | .mod l r =>
      "(" ++ renderExpr names operands l ++ " % " ++ renderExpr names operands r ++ ")"
  | .mul l r =>
      "(" ++ renderExpr names operands l ++ " * " ++ renderExpr names operands r ++ ")"

/-- Two's-complement narrowing of an integer to a 32-bit `int` (value range
`[-2^31, 2^31)`): what `std::vector<int>::push_back` stores when it receives
an `int64_t` that does not fit, as happens to the stride products at CUDA.cc
line 648, and what the `static_cast<int>` at line 468 computes. -/
def wrap32 (x : Int) : Int := (x + 2147483648) % 4294967296 - 2147483648

/-- The stride vector built by the loop at CUDA.cc lines 642-650 (and its four
copies): `strides[0] = 1`, `strides[i] = strides[i-1] * shape[size - i]` —
the product of the `int` stride and the `int64_t` shape entry is computed in
`int64_t` and then narrowed to 32 bits by the push into the
`std::vector<int>`. -/
def codeStrides (shape : List Int) : List Int :=
  (List.range shape.length).foldl
    (fun acc i =>
      if i = 0 then acc ++ [1]
      else acc ++ [wrap32 (acc.getD (i - 1) 0 * shape.getD (shape.length - i) 0)]) []

/-- The bracketed access suffix of a load/store (CUDA.cc lines 638-664 and its
copies): for a global memref, `[e0 * strides[n-1] + e1 * strides[n-2] + ... +
0]` (the loop reads `strides[index--]` starting at `exprs.size() - 1`); for
shared/local memrefs one `[e]` per access expression. -/
def offsetText (names : Names) (ty : MemRefT) (exprs : List AffExpr)
    (operands : List Nat) : String :=
  if ty.space = MemSpace.global then
    let strides := codeStrides ty.shape
    "[" ++ String.join (exprs.enum.map (fun p =>
        renderExpr names operands p.2 ++ " * "
          ++ toString (strides.getD (exprs.length - 1 - p.1) 0) ++ " + ")) ++ "0]"
  else
    String.join (exprs.map (fun e => "[" ++ renderExpr names operands e ++ "]"))

/-- `getVectorFetchType` (CUDA.cc lines 749-767): unknown element widths leave
`width = -1` (the error is only logged); the division is C truncating
division. -/
def vectorFetchType (vecLen : Int) (elem : ScalarT) : String :=
  let width : Int :=
    match elem with
    | .f16 => 16
    | .f32 => 32
    | .f64 => 64
    | _ => -1
  "float" ++ toString (Int.tdiv (vecLen * width) 32)

/-- Emission of one non-container statement, dispatching to the `codegen`
overload of the matching op kind (CUDA.cc lines 381-859).  `none` models the
`assert` abort of `codegen(mlir::AffineApplyOp)` when the affine map has more
than one result expression; container kinds are handled in `emitNode` and
return `none` here (dead cases). -/
def emitStmt (tyOf : Nat → MemRefT) (ind : Nat) (o : Op) (st : St) : Option St :=
  match o with
  | .allocOp r =>
      some { st with buf := st.buf ++ indentStr ind ++ varDeclear tyOf st.names r ++ ";\n" }
  | .constIndexOp r v =>
      some { st with buf := st.buf ++ indentStr ind ++ "constexpr int "
        ++ getValueName st.names r ++ " = " ++ toString v ++ ";\n" }
  | .constFloatOp r ty lit =>
      some { st with buf := st.buf ++ indentStr ind ++ "constexpr " ++ toCStr ty ++ " "
        ++ getValueName st.names r ++ " = " ++ lit ++ ";\n" }
  | .constIntOp r ty v =>
      some { st with buf := st.buf ++ indentStr ind ++ "constexpr " ++ toCStr ty ++ " "
        ++ getValueName st.names r ++ " = " ++ toString (wrap32 v) ++ ";\n" }
  | .mulFOp r l rr =>
      some { st with buf := st.buf ++ indentStr ind ++ "auto " ++ getValueName st.names r
        ++ " = " ++ getValueName st.names l ++ " * " ++ getValueName st.names rr ++ ";\n" }
  | .addFOp r l rr =>
      some { st with buf := st.buf ++ indentStr ind ++ "auto " ++ getValueName st.names r
        ++ " = " ++ getValueName st.names l ++ " + " ++ getValueName st.names rr ++ ";\n" }
  | .maxFOp r l rr =>
      some { st with buf := st.buf ++ indentStr ind ++ "auto " ++ getValueName st.names r
        ++ " = max(" ++ getValueName st.names l ++ " , " ++ getValueName st.names rr
        ++ ");\n" }
  | .subFOp r l rr =>
      some { st with buf := st.buf ++ indentStr ind ++ "auto " ++ getValueName st.names r
        ++ " = " ++ getValueName st.names l ++ " - " ++ getValueName st.names rr ++ ";\n" }
  | .divFOp r l rr =>
      some { st with buf := st.buf ++ indentStr ind ++ "auto " ++ getValueName st.names r
        ++ " = " ++ getValueName st.names l ++ " / " ++ getValueName st.names rr ++ ";\n" }
  | .powFOp r l rr =>
      some { st with buf := st.buf ++ indentStr ind ++ "auto " ++ getValueName st.names r
        ++ " = powf(" ++ getValueName st.names l ++ ", " ++ getValueName st.names rr
        ++ ");\n" }
  | .cmpFOp pred r l rr =>
      match pred with
      | .oeq =>
          some { st with buf := st.buf ++ indentStr ind ++ "auto "
            ++ getValueName st.names r ++ " = " ++ getValueName st.names l ++ " == "
            ++ getValueName st.names rr ++ ";\n" }
      | .ogt =>
          some { st with buf := st.buf ++ indentStr ind ++ "auto "
            ++ getValueName st.names r ++ " = " ++ getValueName st.names l ++ " > "
            ++ getValueName st.names rr ++ ";\n" }
      | _ =>
          some { st with buf := st.buf ++ indentStr ind }
  | .tanhOp r x =>
      some { st with buf := st.buf ++ indentStr ind ++ "auto " ++ getValueName st.names r
        ++ " = tanhf(" ++ getValueName st.names x ++ ");\n" }
  | .sqrtOp r x =>
      some { st with buf := st.buf ++ indentStr ind ++ "auto " ++ getValueName st.names r
        ++ " = sqrtf(" ++ getValueName st.names x ++ ");\n" }
  | .logOp r x =>
      some { st with buf := st.buf ++ indentStr ind ++ "auto " ++ getValueName st.names r
        ++ " = logf(" ++ getValueName st.names x ++ ");\n" }
  | .expOp r x =>
      some { st with buf := st.buf ++ indentStr ind ++ "auto " ++ getValueName st.names r
        ++ " = exp(" ++ getValueName st.names x ++ ");\n" }
  | .bitcastOp r ty x =>
      some { st with buf := st.buf ++ indentStr ind ++ "auto " ++ getValueName st.names r
        ++ " = static_cast<" ++ toCStr ty ++ ">(" ++ getValueName st.names x ++ ");\n" }
  | .barrierOp =>
      some { st with buf := st.buf ++ indentStr ind ++ "__syncthreads();\n" }
  | .shuffleOp mode r v off w =>
      some { st with buf := st.buf ++ indentStr ind ++ "auto " ++ getValueName st.names r
        ++ " = "
        ++ (match mode with
            | .down => " __shfl_down_sync(0xffffffff, "
            | .idx => " __shfl_sync(0xffffffff, "
            | _ => "")
        ++ getValueName st.names v ++ ", " ++ getValueName st.names off ++ ", "
        ++ getValueName st.names w ++ ");\n" }
  | .applyOp r exprs operands =>
      match exprs with
      | [e] =>
          some { st with buf := st.buf ++ indentStr ind ++ "int "
            ++ getValueName st.names r ++ " = " ++ renderExpr st.names operands e
            ++ ";\n" }
      | _ => none
  | .loadOp r mem exprs operands =>
      some { st with buf := st.buf ++ indentStr ind ++ "auto " ++ getValueName st.names r
        ++ " = " ++ getValueName st.names mem
        ++ offsetText st.names (tyOf mem) exprs operands ++ ";\n" }
  | .memLoadOp r mem indices =>
      some { st with buf := st.buf ++ indentStr ind ++ "auto " ++ getValueName st.names r
        ++ " = " ++ getValueName st.names mem
        ++ (offsetText st.names (tyOf mem) ((List.range indices.length).map AffExpr.dim)
             indices) ++ ";\n" }
  | .storeOp mem val exprs operands =>
      some { st with buf := st.buf ++ indentStr ind ++ getValueName st.names mem
        ++ offsetText st.names (tyOf mem) exprs operands
        ++ " = " ++ getValueName st.names val ++ ";\n" }
  | .vecLoadOp r mem vecLen vecElem exprs operands =>
      some { st with buf := st.buf ++ indentStr ind ++ "auto " ++ getValueName st.names r
        ++ " = " ++ "(reinterpret_cast<" ++ vectorFetchType vecLen vecElem ++ "*>(&("
        ++ getValueName st.names mem ++ offsetText st.names (tyOf mem) exprs operands
        ++ "))[0]);\n" }
  | .vecStoreOp mem val vecLen vecElem exprs operands =>
      some { st with buf := st.buf ++ indentStr ind ++ "(reinterpret_cast<"
        ++ vectorFetchType vecLen vecElem ++ "*>(&(" ++ getValueName st.names mem
        ++ offsetText st.names (tyOf mem) exprs operands
        ++ "))[0])" ++ " = " ++ getValueName st.names val ++ ";\n" }
  | _ => none

/-- The four dispatch contexts: the body of an `AffineForOp` (CUDA.cc lines
884-943), of an `AffineIfOp` (lines 580-624), the top-level body of a kernel
`AffineParallelOp` (lines 981-1056), and the inlined body of a nested
`AffineParallelOp` (lines 996-1051). -/
inductive Ctx where
  | forB
  | ifB
  | topB
  | innerB
deriving DecidableEq, Repr

/-- Which op kinds each dispatch chain has a `dyn_cast` case for.  Anything
else falls into the `else` branch, where only a yield escapes the `assert`. -/
def handles : Ctx → Op → Bool
  | .forB, o =>
      match o with
      | .forOp .. | .ifOp .. | .loadOp .. | .applyOp .. | .memLoadOp .. | .storeOp ..
      | .vecLoadOp .. | .vecStoreOp .. | .constIndexOp .. | .constFloatOp ..
      | .constIntOp .. | .mulFOp .. | .addFOp .. | .powFOp .. | .cmpFOp ..
      | .tanhOp .. | .sqrtOp .. | .logOp .. | .divFOp .. | .barrierOp
      | .shuffleOp .. | .allocOp .. | .maxFOp .. | .subFOp .. | .expOp .. => true
      | _ => false
  | .ifB, o =>
      match o with
      | .forOp .. | .ifOp .. | .constIndexOp .. | .constFloatOp .. | .constIntOp ..
      | .vecLoadOp .. | .vecStoreOp .. | .barrierOp | .storeOp .. | .loadOp ..
      | .memLoadOp .. | .maxFOp .. | .mulFOp .. | .addFOp .. | .subFOp ..
      | .divFOp .. | .sqrtOp .. | .expOp .. | .shuffleOp .. => true
      | _ => false
  | .topB, o =>
      match o with
      | .allocOp .. | .constIndexOp .. | .constIntOp .. | .storeOp ..
      | .constFloatOp .. | .applyOp .. | .parallelOp .. => true
      | _ => false
  | .innerB, o =>
      match o with
      | .constIndexOp .. | .constIntOp .. | .allocOp .. | .applyOp .. | .forOp ..
      | .ifOp .. | .loadOp .. | .memLoadOp .. | .storeOp .. | .vecLoadOp ..
      | .vecStoreOp .. | .constFloatOp .. | .mulFOp .. | .addFOp .. | .divFOp ..
      | .subFOp .. | .powFOp .. | .cmpFOp .. | .tanhOp .. | .sqrtOp ..
      | .logOp .. | .bitcastOp .. | .barrierOp => true
      | _ => false

mutual

/-- Statement emission for one node under a dispatch context.  A kind with a
`dyn_cast` case in the context's chain is emitted (containers emit their
header, recurse with indentation +1, and emit their footer; a nested parallel
op in the top-level context is inlined at the same indentation, CUDA.cc lines
995-1051); a kind without a case is a silent skip when it is an
`AffineYieldOp` and an `assert` abort (`none`) otherwise. -/
def emitNode (tyOf : Nat → MemRefT) (ctx : Ctx) (ind : Nat) : Node → St → Option St
  | .mk o body, st =>
    if handles ctx o then
      match o with
      | .forOp iv lb ub step unroll =>
          let hdr := (if unroll then indentStr ind ++ "#pragma unroll\n" else "")
            ++ indentStr ind ++ "for (int " ++ getValueName st.names iv ++ " = "
            ++ toString lb ++ "; " ++ getValueName st.names iv ++ " < " ++ toString ub
            ++ "; " ++ getValueName st.names iv ++ " += " ++ toString step ++ ") \x7b\n"
          match emitNodes tyOf Ctx.forB (ind + 1) body { st with buf := st.buf ++ hdr } with
          | none => none
          | some st2 => some { st2 with buf := st2.buf ++ indentStr ind ++ "\x7d\n" }
      | .ifOp constraints operands =>
          let hdr := indentStr ind ++ "if ("
            ++ String.join (constraints.map (fun c =>
                renderExpr st.names operands c.1 ++ " "
                  ++ (if c.2 then "==" else ">=") ++ " 0 && "))
            ++ " true) \x7b\n"
          match emitNodes tyOf Ctx.ifB (ind + 1) body { st with buf := st.buf ++ hdr } with
          | none => none
          | some st2 => some { st2 with buf := st2.buf ++ indentStr ind ++ "\x7d\n" }
      | .parallelOp _ => emitNodes tyOf Ctx.innerB ind body st
      | _ => emitStmt tyOf ind o st
    else
      match o with
      | .yieldOp => some st
      | _ => none

/-- Emission of the nodes of one body, in order, stopping at the first abort. -/
def emitNodes (tyOf : Nat → MemRefT) (ctx : Ctx) (ind : Nat) :
    List Node → St → Option St
  | [], st => some st
  | n :: ns, st =>
    match emitNode tyOf ctx ind n st with
    | none => none
    | some st2 => emitNodes tyOf ctx ind ns st2

end

/-- `codegen(mlir::AffineParallelOp)` (CUDA.cc lines 950-1060): run the naming
pass, `assert` at least one captured free variable, query the dimension
collaborator, emit the launch-configuration comment, the kernel prototype over
the captured variables in order, the body, and the closing brace.  `D` models
the external `Analyzer::getParallelNumber` (modelled from the spec:
`parallelDims(region) -> ordered sequence of integers`, consumed only for the
comment text); the walk at lines 958-960 leaves `blockDims` equal to `D` of
the last parallel op of the pre-order walk. -/
def emitParallel (io : List (Nat × Nat) → List (Nat × Nat)) (tyOf : Nat → MemRefT)
    (D : Node → List Int) (ind : Nat) (node : Node) (st : St) : Option St :=
  let r := collectVars io node st
  let outsideVars := r.1
  let st1 := r.2
  if outsideVars.isEmpty then none
  else
    let gridDims := D node
    let blockDims := (parallelIVsListNodes node).foldl (fun _ p => D p) ([] : List Int)
    let comment := indentStr ind ++ "// grid dims:("
      ++ String.join (gridDims.map (fun d => toString d ++ ", ")) ++ ")"
      ++ ", block dims:("
      ++ String.join (blockDims.map (fun d => toString d ++ ", ")) ++ ")\n"
    let proto := indentStr ind ++ "__global__ void "
      ++ ("kernel" ++ toString st1.kernelCounter) ++ "("
      ++ varDeclear tyOf st1.names (outsideVars.getD 0 0)
      ++ String.join ((outsideVars.drop 1).map
          (fun v => ", " ++ varDeclear tyOf st1.names v))
      ++ ") \x7b\n"
    let st2 : St :=
      { st1 with
        kernelCounter := st1.kernelCounter + 1
        buf := st1.buf ++ comment ++ proto }
    match emitNodes tyOf Ctx.topB (ind + 1) node.body st2 with
    | none => none
    | some st3 => some { st3 with buf := st3.buf ++ indentStr ind ++ "\x7d\n" }

/-- `codegen(mlir::func::FuncOp)` (CUDA.cc lines 1062-1069): only
`AffineParallelOp`s at the top level of a function are generated; other ops
are skipped. -/
def emitFuncOps (io : List (Nat × Nat) → List (Nat × Nat)) (tyOf : Nat → MemRefT)
    (D : Node → List Int) : List Node → St → Option St
  | [], st => some st
  | n :: ns, st =>
    match n.op with
    | .parallelOp _ =>
        match emitParallel io tyOf D 0 n st with
        | none => none
        | some st2 => emitFuncOps io tyOf D ns st2
    | _ => emitFuncOps io tyOf D ns st

/-- `codegen(mlir::ModuleOp)` (CUDA.cc lines 1072-1077): functions in
declaration order. -/
def emitModule (io : List (Nat × Nat) → List (Nat × Nat)) (tyOf : Nat → MemRefT)
    (D : Node → List Int) : List (List Node) → St → Option St
  | [], st => some st
  | f :: fs, st =>
    match emitFuncOps io tyOf D f st with
    | none => none
    | some st2 => emitModule io tyOf D fs st2

/-- `CUDAGen` (CUDA.cc lines 1081-1093): the text buffer is cleared and seeded
with the runtime include, and the `CUDAGenerator` constructor (lines 94-98)
resets `kernelCounter`, `varCounter` and `valueNameMap`; the incoming global
state `gs` is therefore entirely overwritten.  (The `kernelNameMap` global is
never read or written by the source.)  Returns the generated text, or `none`
when an `assert` aborted generation. -/
def CUDAGen (io : List (Nat × Nat) → List (Nat × Nat)) (tyOf : Nat → MemRefT)
    (D : Node → List Int) (m : List (List Node)) (_gs : St) : Option String :=
  let st0 : St := { kernelCounter := 0, varCounter := 0, names := fun _ => none,
                    buf := "#include \"cuda_runtime.h\"\n" }
  match emitModule io tyOf D m st0 with
  | none => none
  | some st => some st.buf

/-! ## Spec-side definitions and concrete inputs used by the claims -/

/-- The pure (unbounded) row-major stride of dimension `k` of a shape
(outermost first), as claim C1 words it: the product of the shape entries
after position `k`. -/
def rowStride (s : List Int) (k : Nat) : Int :=
  (s.drop (k + 1)).prod

/-- The row-major stride the source actually stores for dimension `k`: the
suffix product accumulated with a 32-bit narrowing at every step, so that
`rowStrideW s (n-1) = 1` and `rowStrideW s k = wrap32 (rowStrideW s (k+1) *
s[k+1])`. -/
def rowStrideW (s : List Int) (k : Nat) : Int :=
  (s.drop (k + 1)).foldr (fun d acc => wrap32 (acc * d)) 1

/-- Types for the C1 counterexample: a global memref of shape
`[1, 65536, 65536]`, whose outermost row-major stride `65536 * 65536 = 2^32`
is narrowed to `0` in the `std::vector<int>`. -/
def c1cTy : Nat → MemRefT := fun _ => ⟨.f32, [1, 65536, 65536], .global⟩

/-- Sum text of the claim: the terms joined with ` + ` and a trailing `+ 0`. -/
def joinedSum : List String → String
  | [] => "0"
  | t :: ts => t ++ " + " ++ joinedSum ts

/-- Symbol table for the C1 witness: memref 30 is `A`, indices 31/32/33 are
`i`/`j`/`k`, load result 34 is `R0`, stored value 35 is `temp0`. -/
def c1St : St :=
  ⟨0, 0, fun v =>
    if v = 30 then some "A" else if v = 31 then some "i" else
    if v = 32 then some "j" else if v = 33 then some "k" else
    if v = 34 then some "R0" else if v = 35 then some "temp0" else none, ""⟩

/-- Types for the C1 witness: every memref is a global `float` of shape
`[4,3,2]`. -/
def c1Ty : Nat → MemRefT := fun _ => ⟨.f32, [4, 3, 2], .global⟩

/-- A kernel in which the same value (5) is the induction variable of two
loops, so the naming pass attempts to name it twice. -/
def collideNode : Node :=
  .mk (.parallelOp [1])
    [ .mk (.parallelOp [2])
        [ .mk (.forOp 5 0 4 1 false)
            [ .mk (.storeOp 9 2 [] []) [], .mk .yieldOp [] ],
          .mk (.forOp 5 0 4 1 false) [ .mk .yieldOp [] ],
          .mk .yieldOp [] ],
      .mk .yieldOp [] ]

/-- Types of the values of `collideNode` (only value 9 is used as a memref). -/
def collideTy : Nat → MemRefT := fun _ => ⟨.f32, [8], .global⟩

/-- The `IfRegion` of the claim's example: constraints `i - 2 == 0` (an `Add`
of dimension 0 and constant `-2`, as affine sets represent subtraction) and
`j >= 0`, with operands 21 (`i`) and 22 (`j`). -/
def ifExNode : Node :=
  .mk (.ifOp [(.add (.dim 0) (.cst (-2)), true), (.dim 1, false)] [21, 22]) []

/-- Symbol table binding value 21 to `i` and 22 to `j`. -/
def ifExSt : St :=
  ⟨0, 0, fun v => if v = 21 then some "i" else if v = 22 then some "j" else none, ""⟩

/-- An `AffineApply` node computing `iter0` into `expr0`. -/
def applyExNode : Node := .mk (.applyOp 7 [.dim 0] [5]) []

/-- Symbol table binding value 5 to `iter0` and 7 to `expr0`. -/
def applyExSt : St :=
  ⟨0, 0, fun v => if v = 5 then some "iter0" else if v = 7 then some "expr0" else none, ""⟩

/-- `g` keeps every binding of `f`. -/
def Ext (f g : Names) : Prop := ∀ v s, f v = some s → g v = some s

/-- All `(value, name)` pairs processed by naming pass 1, in processing
order. -/
def ivAssignments (node : Node) : List (Nat × String) :=
  match parallelIVsList node with
  | [] => []
  | root :: rest =>
      ivPairsOf "blockIdx." root
        ++ (rest.map (fun ivs => ivPairsOf "threadIdx." ivs)).flatten

/-- A kernel with block ivs `[1, 2]` and one nested region with thread iv
`[3]`. -/
def c6Node : Node :=
  .mk (.parallelOp [1, 2])
    [ .mk (.parallelOp [3]) [ .mk .yieldOp [] ],
      .mk .yieldOp [] ]

/-- A kernel with an alloc (value 7) used by a load, plus a captured store
memref (value 9). -/
def c10Node : Node :=
  .mk (.parallelOp [1])
    [ .mk (.parallelOp [2])
        [ .mk (.allocOp 7) [],
          .mk (.loadOp 3 7 [.dim 0] [2]) [],
          .mk (.storeOp 9 3 [.dim 0] [2]) [],
          .mk .yieldOp [] ],
      .mk .yieldOp [] ]

/-- The end-to-end kernel used as the C8 witness input: one scalar load, one
add, one store. -/
def c8Node : Node :=
  .mk (.parallelOp [1])
    [ .mk (.parallelOp [2])
        [ .mk (.loadOp 3 10 [.dim 0] [2]) [],
          .mk (.addFOp 4 3 3) [],
          .mk (.storeOp 11 4 [.dim 0] [2]) [],
          .mk .yieldOp [] ],
      .mk .yieldOp [] ]

/-- Types for the C8 witness: all memrefs global `float` of shape `[8]`. -/
def c8Ty : Nat → MemRefT := fun _ => ⟨.f32, [8], .global⟩

/-- First-occurrence deduplication accumulator (the behaviour of the
`outsidesVars` map checks combined with the insertion ids). -/
def dedupInto (acc l : List Nat) : List Nat :=
  l.foldl (fun a m => if a.contains m then a else a ++ [m]) acc

/-- First-occurrence deduplication of a list. -/
def dedupFirst (l : List Nat) : List Nat := dedupInto [] l

/-- The memref operands scanned by the five capturing passes, in scan order:
vector loads, affine loads, plain loads, affine stores, vector stores — each
in pre-order. -/
def seqMems (node : Node) : List Nat :=
  (vecLoadItems node).map Prod.fst
    ++ (affLoadItems node).map Prod.fst
    ++ (memLoadItems node).map Prod.fst
    ++ affStoreMems node
    ++ vecStoreMems node

/-- All result values named during the capturing passes (vector-load results
and scalar-load results). -/
def allCapResults (node : Node) : List Nat :=
  ((vecLoadItems node).map Prod.snd).flatten
    ++ ((affLoadItems node).map Prod.snd).flatten
    ++ ((memLoadItems node).map Prod.snd).flatten

/-- The capturing-pass invariant: the name map's domain is the pass-1-to-4
domain plus the captured values plus the load results processed so far (`R`),
and the captured list is the first-occurrence dedup of the processed memref
operands (`P`) that had no name after passes 1-4. -/
def CapInv (n4 : Names) (R P : List Nat) (cs : CSt) : Prop :=
  (∀ v, (cs.names v).isSome ↔ ((n4 v).isSome ∨ v ∈ cs.captured ∨ v ∈ R))
    ∧ cs.captured = dedupFirst (P.filter (fun m => (n4 m).isNone))

/-- The scalar-load memref operands of both forms in one combined pre-order
scan — the reading of claim C2's "scalar loads ... each category in
pre-order". -/
def scalarLoadMemsCombined (node : Node) : List Nat :=
  (preorder node).filterMap (fun n =>
    match n.op with
    | .loadOp _ mem _ _ => some mem
    | .memLoadOp _ mem _ => some mem
    | _ => none)

/-- The store memref operands of both forms in one combined pre-order scan. -/
def storeMemsCombined (node : Node) : List Nat :=
  (preorder node).filterMap (fun n =>
    match n.op with
    | .storeOp mem _ _ _ => some mem
    | .vecStoreOp mem _ _ _ _ _ => some mem
    | _ => none)

/-- Modelled from claim C2's words: free variables ordered by first encounter
across the three categories — vector loads, scalar loads (both forms, one
pre-order scan), stores (both forms, one pre-order scan) — capturing operands
with no name from the earlier naming passes. -/
def claimCaptureOrder (node : Node) (st : St) : List Nat :=
  dedupFirst ((((vecLoadItems node).map Prod.fst)
    ++ scalarLoadMemsCombined node ++ storeMemsCombined node).filter
      (fun m => ((namesPrefix node st.names) m).isNone))

/-- A kernel whose body holds a plain-indexed load from memref 10 before an
affine-indexed load from memref 11. -/
def c2Node : Node :=
  .mk (.parallelOp [1])
    [ .mk (.memLoadOp 2 10 []) [],
      .mk (.loadOp 3 11 [] []) [],
      .mk .yieldOp [] ]

/-- A kernel that vector-loads from memref 10, scalar-loads from memref 11,
then stores to memref 12. -/
def c2wNode : Node :=
  .mk (.parallelOp [1])
    [ .mk (.parallelOp [2])
        [ .mk (.vecLoadOp 3 10 4 .f32 [.dim 0] [2]) [],
          .mk (.loadOp 4 11 [.dim 0] [2]) [],
          .mk (.storeOp 12 4 [.dim 0] [2]) [],
          .mk .yieldOp [] ],
      .mk .yieldOp [] ]

/-! ## Theorems

Claim theorems are named `C<n>_...`; `aux_`/lemma-style names are shared
infrastructure. -/

theorem aux_str_foldl_append (l : List String) (a : String) :
    l.foldl (fun r t => r ++ t) a = a ++ l.foldl (fun r t => r ++ t) "" := by
  induction l generalizing a with
  | nil => simp
  | cons x xs ih =>
    simp only [List.foldl_cons]
    rw [ih (a ++ x), ih ("" ++ x), String.empty_append, String.append_assoc]

theorem aux_join_cons (x : String) (xs : List String) :
    String.join (x :: xs) = x ++ String.join xs := by
  show (x :: xs).foldl (fun r t => r ++ t) "" = x ++ xs.foldl (fun r t => r ++ t) ""
  simp only [List.foldl_cons]
  rw [aux_str_foldl_append xs ("" ++ x), String.empty_append]

theorem aux_join_terms (ts : List String) :
    String.join (ts.map (fun t => t ++ " + ")) ++ "0" = joinedSum ts := by
  induction ts with
  | nil => rfl
  | cons t ts ih =>
    simp only [List.map_cons, aux_join_cons, String.append_assoc, joinedSum]
    rw [ih]

theorem aux_wrap32_eq_self (x : Int) (h1 : -2147483648 ≤ x) (h2 : x < 2147483648) :
    wrap32 x = x := by
  unfold wrap32
  rw [Int.emod_eq_of_lt (by omega) (by omega)]
  omega

theorem aux_strides_foldl (s : List Int) (m : Nat) (hm : m ≤ s.length) :
    (List.range m).foldl
      (fun acc i =>
        if i = 0 then acc ++ [1]
        else acc ++ [wrap32 (acc.getD (i - 1) 0 * s.getD (s.length - i) 0)]) []
    = (List.range m).map
        (fun i => (s.drop (s.length - i)).foldr (fun d acc => wrap32 (acc * d)) 1) := by
  induction m with
  | zero => rfl
  | succ j ih =>
    have hj : j ≤ s.length := by omega
    rw [List.range_succ, List.foldl_append, List.map_append, ih hj]
    simp only [List.foldl_cons, List.foldl_nil, List.map_cons, List.map_nil]
    by_cases h0 : j = 0
    · subst h0
      simp [List.drop_length]
    · rw [if_neg h0]
      congr 1
      have hj1 : j - 1 < j := by omega
      rw [List.getD_eq_getElem?_getD, List.getElem?_map, List.getElem?_range hj1]
      simp only [Option.map_some', Option.getD_some]
      have hlen : s.length - j < s.length := by omega
      rw [List.getD_eq_getElem?_getD, List.getElem?_eq_getElem hlen]
      simp only [Option.getD_some]
      rw [List.drop_eq_getElem_cons hlen, List.foldr_cons]
      have heq : s.length - (j - 1) = s.length - j + 1 := by omega
      rw [heq]

theorem aux_codeStrides_eq (s : List Int) :
    codeStrides s = (List.range s.length).map
        (fun i => (s.drop (s.length - i)).foldr (fun d acc => wrap32 (acc * d)) 1) :=
  aux_strides_foldl s s.length le_rfl

theorem aux_codeStrides_getD (s : List Int) (k : Nat) (hk : k < s.length) :
    (codeStrides s).getD (s.length - 1 - k) 0 = rowStrideW s k := by
  rw [aux_codeStrides_eq]
  have hidx : s.length - 1 - k < s.length := by omega
  rw [List.getD_eq_getElem?_getD, List.getElem?_map, List.getElem?_range hidx]
  simp only [Option.map_some', Option.getD_some, rowStrideW]
  have harg : s.length - (s.length - 1 - k) = k + 1 := by omega
  rw [harg]

/-- The bracketed global offset equals the per-dimension terms with the
32-bit row-major strides, joined with ` + ` and a trailing `+ 0`. -/
theorem aux_offsetText_global (names : Names) (ty : MemRefT) (exprs : List AffExpr)
    (operands : List Nat) (hspace : ty.space = MemSpace.global)
    (hrank : exprs.length = ty.shape.length) :
    offsetText names ty exprs operands =
      "[" ++ (joinedSum (exprs.enum.map (fun p =>
        renderExpr names operands p.2 ++ " * "
          ++ toString (rowStrideW ty.shape p.1))) ++ "]") := by
  unfold offsetText
  rw [if_pos hspace]
  dsimp only
  have hmap : exprs.enum.map (fun p =>
      renderExpr names operands p.2 ++ " * "
        ++ toString ((codeStrides ty.shape).getD (exprs.length - 1 - p.1) 0) ++ " + ")
    = (exprs.enum.map (fun p =>
        renderExpr names operands p.2 ++ " * "
          ++ toString (rowStrideW ty.shape p.1))).map (fun t => t ++ " + ") := by
    rw [List.map_map]
    apply List.map_congr_left
    intro p hp
    obtain ⟨k, e⟩ := p
    have hk : k < exprs.length := (List.mem_enum hp).1
    have hk' : k < ty.shape.length := by omega
    have : exprs.length - 1 - k = ty.shape.length - 1 - k := by omega
    rw [this, aux_codeStrides_getD ty.shape k hk']
    simp [String.append_assoc]
  rw [hmap]
  have h0 : ("0]" : String) = "0" ++ "]" := rfl
  rw [h0]
  have hjt := aux_join_terms (exprs.enum.map (fun p =>
    renderExpr names operands p.2 ++ " * " ++ toString (rowStrideW ty.shape p.1)))
  rw [← hjt]
  simp [String.append_assoc]

/-- C1 (amended): for a global-memory `AffineLoadOp`/`AffineStoreOp` on a
memref of rank `n` with `n` access expressions (outermost first), the rendered
flat offset is the sum of `render(e[k]) * stride[k]` joined with `+` plus a
trailing `+ 0`, where the strides are the row-major suffix products
accumulated in a 32-bit `int`: `stride[n-1] = 1` and
`stride[k] = wrap32 (stride[k+1] * s[k+1])`, which equals the claim's pure
row-major product `stride[k+1] * s[k+1]` whenever that product fits in a
32-bit `int`. -/
theorem C1_global_offset_rowmajor (tyOf : Nat → MemRefT) (ind : Nat)
    (r mem vstore : Nat) (exprs : List AffExpr) (operands : List Nat) (st : St)
    (hspace : (tyOf mem).space = MemSpace.global)
    (hrank : exprs.length = (tyOf mem).shape.length)
    (hpos : 1 ≤ exprs.length) :
    (rowStrideW (tyOf mem).shape (exprs.length - 1) = 1
      ∧ (∀ k, k + 1 < exprs.length →
          rowStrideW (tyOf mem).shape k =
            wrap32 (rowStrideW (tyOf mem).shape (k + 1)
              * (tyOf mem).shape.getD (k + 1) 0))
      ∧ (∀ k, k + 1 < exprs.length →
          -2147483648 ≤ rowStrideW (tyOf mem).shape (k + 1)
              * (tyOf mem).shape.getD (k + 1) 0 →
          rowStrideW (tyOf mem).shape (k + 1)
              * (tyOf mem).shape.getD (k + 1) 0 < 2147483648 →
          rowStrideW (tyOf mem).shape k =
            rowStrideW (tyOf mem).shape (k + 1) * (tyOf mem).shape.getD (k + 1) 0))
    ∧ emitStmt tyOf ind (.loadOp r mem exprs operands) st =
        some { st with buf := st.buf ++ indentStr ind ++ "auto "
          ++ getValueName st.names r ++ " = " ++ getValueName st.names mem
          ++ ("[" ++ (joinedSum (exprs.enum.map (fun p =>
               renderExpr st.names operands p.2 ++ " * "
                 ++ toString (rowStrideW (tyOf mem).shape p.1))) ++ "]")) ++ ";\n" }
    ∧ emitStmt tyOf ind (.storeOp mem vstore exprs operands) st =
        some { st with buf := st.buf ++ indentStr ind ++ getValueName st.names mem
          ++ ("[" ++ (joinedSum (exprs.enum.map (fun p =>
               renderExpr st.names operands p.2 ++ " * "
                 ++ toString (rowStrideW (tyOf mem).shape p.1))) ++ "]"))
          ++ " = " ++ getValueName st.names vstore ++ ";\n" } := by
  have hrec : ∀ k, k + 1 < exprs.length →
      rowStrideW (tyOf mem).shape k =
        wrap32 (rowStrideW (tyOf mem).shape (k + 1)
          * (tyOf mem).shape.getD (k + 1) 0) := by
    intro k hk
    have hk' : k + 1 < (tyOf mem).shape.length := by omega
    rw [rowStrideW, rowStrideW, List.drop_eq_getElem_cons hk', List.foldr_cons]
    rw [List.getD_eq_getElem?_getD, List.getElem?_eq_getElem hk']
    rfl
  refine ⟨⟨?_, hrec, ?_⟩, ?_, ?_⟩
  · rw [rowStrideW]
    have : exprs.length - 1 + 1 = (tyOf mem).shape.length := by omega
    rw [this, List.drop_length, List.foldr_nil]
  · intro k hk hlo hhi
    rw [hrec k hk, aux_wrap32_eq_self _ hlo hhi]
  · simp only [emitStmt, aux_offsetText_global st.names (tyOf mem) exprs operands
      hspace hrank]
  · simp only [emitStmt, aux_offsetText_global st.names (tyOf mem) exprs operands
      hspace hrank]

/-- Witness for C1 at the claim's example: shape `[4,3,2]` (every stride
product fits in 32 bits), access `[i,j,k]` renders the offset
`i * 6 + j * 2 + k * 1 + 0`. -/
theorem C1_witness :
    ((c1Ty 30).space = MemSpace.global
      ∧ ([AffExpr.dim 0, .dim 1, .dim 2].length = (c1Ty 30).shape.length)
      ∧ 1 ≤ [AffExpr.dim 0, .dim 1, .dim 2].length)
    ∧ emitStmt c1Ty 0 (.loadOp 34 30 [.dim 0, .dim 1, .dim 2] [31, 32, 33]) c1St =
        some { c1St with buf := "auto R0 = A["
          ++ (joinedSum ([AffExpr.dim 0, .dim 1, .dim 2].enum.map (fun p =>
               renderExpr c1St.names [31, 32, 33] p.2 ++ " * "
                 ++ toString (rowStrideW (c1Ty 30).shape p.1))) ++ "]") ++ ";\n" }
    ∧ joinedSum ([AffExpr.dim 0, .dim 1, .dim 2].enum.map (fun p =>
          renderExpr c1St.names [31, 32, 33] p.2 ++ " * "
            ++ toString (rowStrideW (c1Ty 30).shape p.1)))
        = "i * 6 + j * 2 + k * 1 + 0" := by
  refine ⟨⟨rfl, rfl, by norm_num⟩, ?_, rfl⟩
  have h := (C1_global_offset_rowmajor c1Ty 0 34 30 35 [.dim 0, .dim 1, .dim 2]
    [31, 32, 33] c1St rfl rfl (by norm_num)).2.1
  rw [h]
  rfl

/-- Counterexample to C1 as stated: on the global shape `[1, 65536, 65536]`
the claim's pure row-major stride of the outermost dimension is
`65536 * 65536 = 4294967296 = 2^32`, but the source accumulates the strides
in a `std::vector<int>` (CUDA.cc lines 644-650), which narrows that product
to `0`; the rendered offset is `i * 0 + j * 65536 + k * 1 + 0`, not the
claim's `i * 4294967296 + j * 65536 + k * 1 + 0`. -/
theorem C1_counterexample :
    emitStmt c1cTy 0 (.loadOp 34 30 [.dim 0, .dim 1, .dim 2] [31, 32, 33]) c1St =
      some { c1St with buf := "auto R0 = A[i * 0 + j * 65536 + k * 1 + 0];\n" }
    ∧ rowStride (c1cTy 30).shape 0 = 4294967296
    ∧ ("auto R0 = A[i * 0 + j * 65536 + k * 1 + 0];\n"
        ≠ "auto R0 = A[i * 4294967296 + j * 65536 + k * 1 + 0];\n") :=
  ⟨rfl, rfl, by decide⟩

/-! ## Claim C3: rendering and value of CeilDiv -/

/-- C3: for every `CeilDiv(lhs, rhs)` affine expression the evaluator renders
`((L + R - 1) / R)` where `L`, `R` are the renderings of the operands; and for
every non-negative integer value of the left operand and positive integer
value of the right operand, that expression evaluated with C integer division
(truncation toward zero, `Int.tdiv`) equals the ceiling of their quotient. -/
theorem C3_ceildiv_render_and_value :
    (∀ (names : Names) (operands : List Nat) (l r : AffExpr),
        renderExpr names operands (.ceilDiv l r) =
          "((" ++ renderExpr names operands l ++ " + " ++ renderExpr names operands r
            ++ " - 1)" ++ " / " ++ renderExpr names operands r ++ ")")
    ∧ (∀ a b : ℤ, 0 ≤ a → 0 < b →
        Int.tdiv (a + b - 1) b = ⌈((a : ℤ) : ℚ) / ((b : ℤ) : ℚ)⌉) := by
  constructor
  · intro names operands l r
    rfl
  · intro a b ha hb
    have hb0 : (0 : ℚ) < ((b : ℤ) : ℚ) := by exact_mod_cast hb
    have hnn : 0 ≤ a + b - 1 := by omega
    rw [Int.tdiv_eq_ediv hnn (by omega)]
    have hid := Int.ediv_add_emod (a + b - 1) b
    have he0 : 0 ≤ (a + b - 1) % b := Int.emod_nonneg _ (by omega)
    have helt : (a + b - 1) % b < b := Int.emod_lt_of_pos _ hb
    symm
    rw [Int.ceil_eq_iff]
    have h1 : b * ((a + b - 1) / b - 1) < a := by
      rw [mul_sub, mul_one]
      linarith
    have h2 : a ≤ b * ((a + b - 1) / b) := by linarith
    constructor
    · rw [sub_lt_iff_lt_add, div_add' _ _ _ (ne_of_gt hb0), lt_div_iff₀ hb0]
      have h1q : ((b * ((a + b - 1) / b - 1) : ℤ) : ℚ) < ((a : ℤ) : ℚ) := by
        exact_mod_cast h1
      push_cast at h1q ⊢
      nlinarith [h1q]
    · rw [div_le_iff₀ hb0]
      have h2q : ((a : ℤ) : ℚ) ≤ ((b * ((a + b - 1) / b) : ℤ) : ℚ) := by
        exact_mod_cast h2
      push_cast at h2q ⊢
      nlinarith [h2q]

/-- Witness for C3 at the concrete operands 7 and 3. -/
theorem C3_witness :
    (renderExpr (fun _ => none) [] (.ceilDiv (.cst 7) (.cst 3)) = "((7 + 3 - 1) / 3)")
    ∧ ((0 : ℤ) ≤ 7 ∧ (0 : ℤ) < 3
        ∧ Int.tdiv (7 + 3 - 1) 3 = ⌈((7 : ℤ) : ℚ) / ((3 : ℤ) : ℚ)⌉) :=
  ⟨by rw [C3_ceildiv_render_and_value.1]; rfl,
   by norm_num, by norm_num,
   C3_ceildiv_render_and_value.2 7 3 (by norm_num) (by norm_num)⟩

/-! ## Claim C4: write-once naming does not abort generation -/

/-- C4 (amended): a second attempt to name an already-named value returns
`false` and leaves the symbol table unchanged (no overwrite), but it does not
abort the generation call — the callers ignore the result and generation
continues. -/
theorem C4_second_naming_returns_false (names : Names) (v : Nat) (nm s : String)
    (h : names v = some s) :
    setValueName names v nm = (false, names) := by
  simp [setValueName, h]

/-- Witness for C4 at a concrete one-entry symbol table. -/
theorem C4_witness :
    ((fun u => if u = 3 then some "x" else none) : Names) 3 = some "x"
    ∧ setValueName (fun u => if u = 3 then some "x" else none) 3 "y"
        = (false, fun u => if u = 3 then some "x" else none) :=
  ⟨rfl, C4_second_naming_returns_false (fun u => if u = 3 then some "x" else none)
    3 "y" "x" rfl⟩

/-- Counterexample to C4 as stated: on `collideNode` the second naming attempt
for value 5 occurs during the loop-induction pass; the source merely logs,
keeps the first name `iter0`, and generation runs to completion (`isSome`),
instead of aborting the generation call. -/
theorem C4_counterexample :
    ((collectVars id collideNode ⟨0, 0, fun _ => none, ""⟩).2.names 5 = some "iter0")
    ∧ (CUDAGen id collideTy (fun _ => [1]) [[collideNode]]
        ⟨0, 0, fun _ => none, ""⟩).isSome = true :=
  ⟨rfl, by rfl⟩

/-! ## Claim C5: the emitted if-condition -/

/-- C5 (amended): an `IfRegion` emits `if (` followed by each constraint
rendered as `expr == 0` (equality) or `expr >= 0` (inequality), each followed
by ` && `, and then a final literal ` true` conjunct before `)` — i.e. the
condition is the conjunction of the constraints AND a trailing `true`, not the
constraints alone. -/
theorem C5_if_condition_text (tyOf : Nat → MemRefT) (ind : Nat)
    (constraints : List (AffExpr × Bool)) (operands : List Nat) (st : St) :
    emitNode tyOf Ctx.forB ind (.mk (.ifOp constraints operands) []) st =
      some { st with buf := st.buf ++ (indentStr ind ++ "if ("
        ++ String.join (constraints.map (fun c =>
            renderExpr st.names operands c.1 ++ " "
              ++ (if c.2 then "==" else ">=") ++ " 0 && "))
        ++ " true) \x7b\n") ++ indentStr ind ++ "\x7d\n" } := by
  simp [emitNode, handles, emitNodes]

/-- Counterexample to C5 as stated: for constraints `[i - 2 == 0, j >= 0]` the
emitter produces `if ((i + -2) == 0 && j >= 0 &&  true) {` — with a trailing
`&&  true` conjunct (and parenthesised rendering), not
`if (i - 2 == 0 && j >= 0)` with nothing else. -/
theorem C5_counterexample :
    emitNode (fun _ => ⟨.f32, [], .global⟩) Ctx.forB 0 ifExNode ifExSt =
      some { ifExSt with buf := "if ((i + -2) == 0 && j >= 0 &&  true) \x7b\n\x7d\n" }
    ∧ ("if ((i + -2) == 0 && j >= 0 &&  true) \x7b\n\x7d\n"
        ≠ "if (i - 2 == 0 && j >= 0) \x7b\n\x7d\n") :=
  ⟨rfl, by decide⟩

/-! ## Claim C7: unknown node kinds -/

/-- C7 (amended): a node kind with no `dyn_cast` case in the dispatch chain of
the current context makes generation abort through a failed `assert` (modelled
`none`) — a crash, not a recoverable `UnsupportedNodeKind` error value — while
a yield is skipped silently. -/
theorem C7_unknown_kind_aborts (tyOf : Nat → MemRefT) (ctx : Ctx) (ind : Nat)
    (o : Op) (b : List Node) (st : St)
    (hno : handles ctx o = false) (hny : o ≠ .yieldOp) :
    emitNode tyOf ctx ind (.mk o b) st = none := by
  cases o <;> simp_all [emitNode]

/-- Witness for C7: a `Bitcast` inside a `ForLoop` body (no case in the
for-body chain, CUDA.cc lines 884-943) aborts emission. -/
theorem C7_witness :
    handles Ctx.forB (.bitcastOp 7 .int 8) = false
    ∧ (.bitcastOp 7 .int 8 : Op) ≠ .yieldOp
    ∧ emitNode (fun _ => ⟨.f32, [], .global⟩) Ctx.forB 1
        (.mk (.bitcastOp 7 .int 8) []) ⟨0, 0, fun _ => none, ""⟩ = none :=
  ⟨rfl, by decide,
   C7_unknown_kind_aborts (fun _ => ⟨.f32, [], .global⟩) Ctx.forB 1
     (.bitcastOp 7 .int 8) [] ⟨0, 0, fun _ => none, ""⟩ rfl (by decide)⟩

/-- Counterexample to C7 as stated: at the concrete input — a `Bitcast` node
directly inside a `ForLoop` body — emission ends in the `assert` abort
(`none`), which is a crash of the generation process; the source has no
`UnsupportedNodeKind` error value to return at all. -/
theorem C7_counterexample :
    emitNodes (fun _ => ⟨.f32, [], .global⟩) Ctx.forB 1
      [.mk (.bitcastOp 7 .int 8) [], .mk .yieldOp []] ⟨0, 0, fun _ => none, ""⟩
      = none :=
  rfl

/-- C9: the set of handled node kinds depends on the enclosing container — the
same `AffineApply` node aborts emission (`assert`, modelled `none`) when it
appears directly in an `IfRegion` body, yet is emitted normally inside a
`ForLoop` body and inside a nested parallel-region body. -/
theorem C9_apply_unhandled_in_if_body :
    emitNode (fun _ => ⟨.f32, [], .global⟩) Ctx.ifB 1 applyExNode applyExSt = none
    ∧ emitNode (fun _ => ⟨.f32, [], .global⟩) Ctx.forB 1 applyExNode applyExSt =
        some { applyExSt with buf := "  int expr0 = iter0;\n" }
    ∧ emitNode (fun _ => ⟨.f32, [], .global⟩) Ctx.innerB 1 applyExNode applyExSt =
        some { applyExSt with buf := "  int expr0 = iter0;\n" } :=
  ⟨rfl, rfl, rfl⟩

theorem ext_refl (f : Names) : Ext f f := fun _ _ h => h

theorem ext_trans {f g h : Names} (h1 : Ext f g) (h2 : Ext g h) : Ext f h :=
  fun v s hv => h2 v s (h1 v s hv)

theorem setValueName_snd (f : Names) (w : Nat) (nm : String) :
    (setValueName f w nm).2 =
      if (f w).isSome then f else (fun u => if u = w then some nm else f u) := by
  unfold setValueName
  split <;> simp_all

theorem setValueName_other (f : Names) (w : Nat) (nm : String) (u : Nat)
    (h : u ≠ w) : (setValueName f w nm).2 u = f u := by
  rw [setValueName_snd]
  split
  · rfl
  · simp [if_neg h]

theorem setValueName_none (f : Names) (w : Nat) (nm : String) (h : f w = none) :
    (setValueName f w nm).2 w = some nm := by
  rw [setValueName_snd, if_neg (by simp [h]), if_pos rfl]

theorem setValueName_isSome_self (f : Names) (w : Nat) (nm : String) :
    ((setValueName f w nm).2 w).isSome := by
  rw [setValueName_snd]
  split
  · assumption
  · simp

theorem ext_setValueName (f : Names) (w : Nat) (nm : String) :
    Ext f (setValueName f w nm).2 := by
  intro v s hv
  rw [setValueName_snd]
  split
  · exact hv
  · next hns =>
    by_cases hvw : v = w
    · subst hvw
      rw [hv] at hns
      simp at hns
    · simpa [if_neg hvw] using hv

theorem assignAll_cons (p : Nat × String) (ps : List (Nat × String)) (f : Names) :
    assignAll (p :: ps) f = assignAll ps (setValueName f p.1 p.2).2 := rfl

theorem assignAll_append (a b : List (Nat × String)) (f : Names) :
    assignAll (a ++ b) f = assignAll b (assignAll a f) := by
  unfold assignAll
  rw [List.foldl_append]

theorem ext_assignAll (ps : List (Nat × String)) (f : Names) :
    Ext f (assignAll ps f) := by
  induction ps generalizing f with
  | nil => exact ext_refl f
  | cons p rest ih =>
    rw [assignAll_cons]
    exact ext_trans (ext_setValueName f p.1 p.2) (ih _)

theorem assignAll_not_mem (ps : List (Nat × String)) (f : Names) (v : Nat)
    (h : v ∉ ps.map Prod.fst) : assignAll ps f v = f v := by
  induction ps generalizing f with
  | nil => rfl
  | cons p rest ih =>
    have hne : v ≠ p.1 := by
      intro hv
      exact h (by simp [hv])
    rw [assignAll_cons, ih _ (by intro hm; exact h (by simp [hm]))]
    exact setValueName_other f p.1 p.2 v hne

theorem assignAll_mem (ps : List (Nat × String)) (f : Names) (v : Nat) (nm : String)
    (hnd : (ps.map Prod.fst).Nodup) (hfresh : ∀ p ∈ ps, f p.1 = none)
    (hmem : (v, nm) ∈ ps) : assignAll ps f v = some nm := by
  induction ps generalizing f with
  | nil => cases hmem
  | cons p rest ih =>
    rw [List.map_cons, List.nodup_cons] at hnd
    rw [assignAll_cons]
    rcases List.mem_cons.1 hmem with heq | hrest
    · have hp1 : p.1 = v := by rw [← heq]
      have hp2 : p.2 = nm := by rw [← heq]
      have hfv : f p.1 = none := hfresh p (by simp)
      rw [assignAll_not_mem rest _ v (by rw [← hp1]; exact hnd.1)]
      rw [← hp1, ← hp2]
      exact setValueName_none f p.1 p.2 hfv
    · refine ih _ hnd.2 ?_ hrest
      intro q hq
      have hqp : q.1 ≠ p.1 := by
        intro hc
        exact hnd.1 (hc ▸ List.mem_map_of_mem Prod.fst hq)
      rw [setValueName_other f p.1 p.2 q.1 hqp]
      exact hfresh q (List.mem_cons_of_mem p hq)

theorem assignAll_isSome (ps : List (Nat × String)) (f : Names) (v : Nat)
    (h : v ∈ ps.map Prod.fst) : (assignAll ps f v).isSome := by
  induction ps generalizing f with
  | nil => simp at h
  | cons p rest ih =>
    rw [assignAll_cons]
    by_cases hv : v ∈ rest.map Prod.fst
    · exact ih _ hv
    · have hvp : v = p.1 := by
        rw [List.map_cons] at h
        rcases List.mem_cons.1 h with h1 | h1
        · exact h1
        · exact absurd h1 hv
      subst hvp
      obtain ⟨s, hs⟩ := Option.isSome_iff_exists.1 (setValueName_isSome_self f p.1 p.2)
      rw [ext_assignAll rest _ p.1 s hs]
      rfl

theorem namePass_eq_assignAll (mk : Nat → String) (vs : List Nat) (f : Names) :
    namePass mk vs f = assignAll (vs.enum.map (fun p => (p.2, mk p.1))) f := rfl

theorem namePass_fst (mk : Nat → String) (vs : List Nat) :
    (vs.enum.map (fun p => (p.2, mk p.1))).map Prod.fst = vs := by
  rw [List.map_map]
  show vs.enum.map Prod.snd = vs
  exact List.enum_map_snd vs

theorem ext_namePass (mk : Nat → String) (vs : List Nat) (f : Names) :
    Ext f (namePass mk vs f) :=
  ext_assignAll _ f

theorem namePass_isSome (mk : Nat → String) (vs : List Nat) (f : Names) (v : Nat)
    (h : v ∈ vs) : ((namePass mk vs f) v).isSome := by
  rw [namePass_eq_assignAll]
  exact assignAll_isSome _ f v (by rw [namePass_fst]; exact h)

theorem aux_foldl_thread (L : List (List Nat)) (g : Names) :
    L.foldl (fun ns ivs => assignAll (ivPairsOf "threadIdx." ivs) ns) g
      = assignAll ((L.map (fun ivs => ivPairsOf "threadIdx." ivs)).flatten) g := by
  induction L generalizing g with
  | nil => rfl
  | cons a L ih =>
    rw [List.foldl_cons, List.map_cons, List.flatten_cons, assignAll_append, ih]

theorem pass1_eq_assignAll (node : Node) (f : Names) :
    pass1 node f = assignAll (ivAssignments node) f := by
  unfold pass1 ivAssignments
  cases parallelIVsList node with
  | nil => rfl
  | cons root rest =>
    rw [assignAll_append]
    exact aux_foldl_thread rest _

theorem ext_pass1 (node : Node) (f : Names) : Ext f (pass1 node f) := by
  rw [pass1_eq_assignAll]
  exact ext_assignAll _ f

theorem ext_namesPrefix (node : Node) (ns : Names) :
    Ext (pass1 node ns) (namesPrefix node ns) :=
  ext_trans (ext_namePass _ _ _)
    (ext_trans (ext_namePass _ _ _) (ext_namePass _ _ _))

theorem ext_captureOne (cs : CSt) (mem : Nat) :
    Ext cs.names (captureOne cs mem).names := by
  unfold captureOne
  split
  · exact ext_refl _
  · split
    · exact ext_refl _
    · exact ext_setValueName _ _ _

theorem nameResults_cons (mk : Nat → String) (p : Names × Nat) (r : Nat)
    (rest : List Nat) :
    nameResults mk p (r :: rest)
      = nameResults mk ((setValueName p.1 r (mk p.2)).2, p.2 + 1) rest := rfl

theorem ext_nameResults (mk : Nat → String) (p : Names × Nat) (rs : List Nat) :
    Ext p.1 (nameResults mk p rs).1 := by
  induction rs generalizing p with
  | nil => exact ext_refl _
  | cons r rest ih =>
    rw [nameResults_cons]
    exact ext_trans (ext_setValueName p.1 r (mk p.2))
      (ih ((setValueName p.1 r (mk p.2)).2, p.2 + 1))

theorem ext_capItem (mk : Nat → String) (p : CSt × Nat) (item : Nat × List Nat) :
    Ext p.1.names (capItem mk p item).1.names := by
  unfold capItem
  dsimp only
  exact ext_trans (ext_captureOne p.1 item.1)
    (ext_nameResults mk ((captureOne p.1 item.1).names, p.2) item.2)

theorem ext_capturePass (mk : Nat → String) (items : List (Nat × List Nat))
    (p : CSt × Nat) : Ext p.1.names (capturePass mk items p).1.names := by
  induction items generalizing p with
  | nil => exact ext_refl _
  | cons it rest ih =>
    exact ext_trans (ext_capItem mk p it) (ih _)

theorem ext_capturePass2 (mk : Nat → String) (items : List (Nat × List Nat))
    (cs : CSt) (c : Nat) : Ext cs.names (capturePass mk items (cs, c)).1.names :=
  ext_capturePass mk items (cs, c)

theorem ext_captureAll (node : Node) (vc : Nat) (n4 : Names) :
    Ext n4 (captureAll node vc n4).names := by
  unfold captureAll
  dsimp only
  exact ext_trans (ext_capturePass2 _ _ ⟨vc, n4, []⟩ 0)
    (ext_trans (ext_capturePass2 _ _ _ _)
      (ext_trans (ext_capturePass2 _ _ _ _)
        (ext_trans (ext_capturePass2 _ _ _ _) (ext_capturePass2 _ _ _ _))))

theorem collectVars_names (io : List (Nat × Nat) → List (Nat × Nat)) (node : Node)
    (st : St) :
    (collectVars io node st).2.names =
      namePass (fun c => "temp" ++ toString c) (tempResults node)
        (namePass (fun c => "const" ++ toString c ++ "th") (constResults node)
          (captureAll node st.varCounter (namesPrefix node st.names)).names) := rfl

theorem ext_collectVars (io : List (Nat × Nat) → List (Nat × Nat)) (node : Node)
    (st : St) :
    Ext (pass1 node st.names) (collectVars io node st).2.names := by
  rw [collectVars_names]
  exact ext_trans (ext_namesPrefix node st.names)
    (ext_trans (ext_captureAll node st.varCounter (namesPrefix node st.names))
      (ext_trans (ext_namePass _ _ _) (ext_namePass _ _ _)))

/-! ## Captured values are never already-named values -/

theorem captureOne_keep (n4 : Names) (cs : CSt) (mem : Nat)
    (h1 : Ext n4 cs.names) (h2 : ∀ w ∈ cs.captured, n4 w = none) :
    Ext n4 (captureOne cs mem).names
      ∧ ∀ w ∈ (captureOne cs mem).captured, n4 w = none := by
  unfold captureOne
  split
  · exact ⟨h1, h2⟩
  · next hns =>
    split
    · exact ⟨h1, h2⟩
    · refine ⟨ext_trans h1 (ext_setValueName _ _ _), ?_⟩
      intro w hw
      rcases List.mem_append.1 hw with h | h
      · exact h2 w h
      · have hwm : w = mem := by simpa using h
        subst hwm
        cases hn : n4 w with
        | none => rfl
        | some s => exact absurd (Option.isSome_iff_exists.2 ⟨s, h1 w s hn⟩) hns

theorem capItem_keep (n4 : Names) (mk : Nat → String) (p : CSt × Nat)
    (item : Nat × List Nat) (h1 : Ext n4 p.1.names)
    (h2 : ∀ w ∈ p.1.captured, n4 w = none) :
    Ext n4 (capItem mk p item).1.names
      ∧ ∀ w ∈ (capItem mk p item).1.captured, n4 w = none := by
  unfold capItem
  dsimp only
  obtain ⟨hc1, hc2⟩ := captureOne_keep n4 p.1 item.1 h1 h2
  exact ⟨ext_trans hc1 (ext_nameResults mk ((captureOne p.1 item.1).names, p.2) item.2),
    hc2⟩

theorem capturePass_keep (n4 : Names) (mk : Nat → String)
    (items : List (Nat × List Nat)) (p : CSt × Nat) (h1 : Ext n4 p.1.names)
    (h2 : ∀ w ∈ p.1.captured, n4 w = none) :
    Ext n4 (capturePass mk items p).1.names
      ∧ ∀ w ∈ (capturePass mk items p).1.captured, n4 w = none := by
  induction items generalizing p with
  | nil => exact ⟨h1, h2⟩
  | cons it rest ih =>
    obtain ⟨hh1, hh2⟩ := capItem_keep n4 mk p it h1 h2
    exact ih _ hh1 hh2

theorem capturePass_keep2 (n4 : Names) (mk : Nat → String)
    (items : List (Nat × List Nat)) (cs : CSt) (c : Nat) (h1 : Ext n4 cs.names)
    (h2 : ∀ w ∈ cs.captured, n4 w = none) :
    Ext n4 (capturePass mk items (cs, c)).1.names
      ∧ ∀ w ∈ (capturePass mk items (cs, c)).1.captured, n4 w = none :=
  capturePass_keep n4 mk items (cs, c) h1 h2

theorem captureAll_keep (node : Node) (vc : Nat) (n4 : Names) :
    ∀ w ∈ (captureAll node vc n4).captured, n4 w = none := by
  unfold captureAll
  dsimp only
  have h5 := capturePass_keep2 n4 (fun c => "vec" ++ toString c) (vecLoadItems node)
    ⟨vc, n4, []⟩ 0 (ext_refl n4) (by intro w hw; cases hw)
  have h6a := capturePass_keep2 n4 (fun c => "R" ++ toString c) (affLoadItems node)
    _ 0 h5.1 h5.2
  have h6b := capturePass_keep2 n4 (fun c => "R" ++ toString c) (memLoadItems node)
    _ ((capturePass (fun c => "R" ++ toString c) (affLoadItems node)
        ((capturePass (fun c => "vec" ++ toString c) (vecLoadItems node)
          (⟨vc, n4, []⟩, 0)).1, 0)).2) h6a.1 h6a.2
  have h7a := capturePass_keep2 n4 (fun _ => "")
    ((affStoreMems node).map (fun m => (m, []))) _ 0 h6b.1 h6b.2
  have h7b := capturePass_keep2 n4 (fun _ => "")
    ((vecStoreMems node).map (fun m => (m, []))) _ 0 h7a.1 h7a.2
  exact h7b.2

/-! ## Claim C10: alloc results are never captured -/

/-- C10: a memref value produced by an `Alloc` inside the kernel region never
appears in the captured free-variable list: the naming pass names all alloc
results (pass 4) strictly before scanning loads and stores, and a load/store
memref operand is captured only when it has no name at scan time. -/
theorem C10_alloc_results_not_captured (io : List (Nat × Nat) → List (Nat × Nat))
    (node : Node) (st : St) (v : Nat)
    (hio : ∀ l : List (Nat × Nat), (io l).Perm l)
    (halloc : v ∈ allocResults node) :
    v ∉ (collectVars io node st).1 := by
  intro hmem
  have hmem' : v ∈ (List.insertionSort (fun a b => a.2 ≤ b.2)
      (io ((captureAll node st.varCounter (namesPrefix node st.names)).captured.enum.map
        (fun q => (q.2, q.1))))).map Prod.fst := hmem
  obtain ⟨q, hq, hqv⟩ := List.mem_map.1 hmem'
  have hq2 : q ∈ ((captureAll node st.varCounter
      (namesPrefix node st.names)).captured.enum.map (fun q => (q.2, q.1))) :=
    (((List.perm_insertionSort _ _).trans (hio _)).mem_iff).1 hq
  obtain ⟨e, he, heq⟩ := List.mem_map.1 hq2
  have hvcap : v ∈ (captureAll node st.varCounter (namesPrefix node st.names)).captured := by
    obtain ⟨hlt, hget⟩ := List.mem_enum he
    have : e.2 ∈ (captureAll node st.varCounter (namesPrefix node st.names)).captured := by
      rw [hget]
      exact List.getElem_mem hlt
    have hv2 : v = e.2 := by rw [← hqv, ← heq]
    rw [hv2]
    exact this
  have hnone := captureAll_keep node st.varCounter (namesPrefix node st.names) v hvcap
  have hsome : ((namesPrefix node st.names) v).isSome := by
    unfold namesPrefix
    exact namePass_isSome _ _ _ v halloc
  rw [hnone] at hsome
  cases hsome

/-! ## Claim C6: blockIdx/threadIdx naming of parallel induction variables -/

theorem preorder_mk (o : Op) (b : List Node) :
    preorder (.mk o b) = .mk o b :: preorderL b := by
  rw [preorder]

theorem ivPairsOf_fst (pfx : String) (ivs : List Nat) :
    (ivPairsOf pfx ivs).map Prod.fst = ivs := by
  unfold ivPairsOf
  rw [List.map_map]
  show ivs.enum.map Prod.snd = ivs
  exact List.enum_map_snd ivs

theorem ivAssignments_eq (node : Node) (root : List Nat) (rest : List (List Nat))
    (h : parallelIVsList node = root :: rest) :
    ivAssignments node = ivPairsOf "blockIdx." root
      ++ (rest.map (fun ivs => ivPairsOf "threadIdx." ivs)).flatten := by
  unfold ivAssignments
  rw [h]

theorem ivAssignments_fst (node : Node) :
    (ivAssignments node).map Prod.fst = (parallelIVsList node).flatten := by
  unfold ivAssignments
  cases h : parallelIVsList node with
  | nil => rfl
  | cons root rest =>
    rw [List.flatten_cons, List.map_append, ivPairsOf_fst]
    congr 1
    rw [List.map_flatten, List.map_map]
    have : (List.map Prod.fst ∘ fun ivs => ivPairsOf "threadIdx." ivs)
        = fun ivs : List Nat => ivs := by
      funext ivs
      exact ivPairsOf_fst "threadIdx." ivs
    rw [this]
    simp

theorem ivPairsOf_mem (pfx : String) (ivs : List Nat) (i : Nat) (h : i < ivs.length) :
    (ivs.getD i 0, pfx ++ ["x", "y", "z"].getD (ivs.length - i - 1) "")
      ∈ ivPairsOf pfx ivs := by
  unfold ivPairsOf
  have he : (i, ivs[i]) ∈ ivs.enum := by
    apply List.getElem?_mem (n := i)
    rw [List.getElem?_enum, List.getElem?_eq_getElem h]
    rfl
  have hgd : ivs.getD i 0 = ivs[i] := by
    rw [List.getD_eq_getElem?_getD, List.getElem?_eq_getElem h]
    rfl
  rw [hgd]
  exact List.mem_map_of_mem _ he

theorem parallelIVsList_eq_cons (ivs : List Nat) (body : List Node) :
    parallelIVsList (.mk (.parallelOp ivs) body)
      = ivs :: (parallelIVsList (.mk (.parallelOp ivs) body)).drop 1 := by
  unfold parallelIVsList
  rw [preorder_mk]
  rfl

/-- C6: the naming pass names the walk root's induction variables
`blockIdx.{z,y,x}` and every nested parallel region's `threadIdx.{z,y,x}`,
by reverse operand position (operand `i` of `n` gets the suffix at index
`n - i - 1` of `[x, y, z]`, so the last operand gets `x`). -/
theorem C6_parallel_iv_naming (io : List (Nat × Nat) → List (Nat × Nat))
    (node : Node) (ivs : List Nat) (body : List Node) (st : St)
    (hnode : node = .mk (.parallelOp ivs) body)
    (hnodup : ((parallelIVsList node).flatten).Nodup)
    (hfresh : ∀ v ∈ (parallelIVsList node).flatten, st.names v = none) :
    (∀ i, i < ivs.length → ivs.length ≤ 3 →
      (collectVars io node st).2.names (ivs.getD i 0)
        = some ("blockIdx." ++ ["x", "y", "z"].getD (ivs.length - i - 1) ""))
    ∧ (∀ q, q ∈ (parallelIVsList node).drop 1 → ∀ i, i < q.length → q.length ≤ 3 →
      (collectVars io node st).2.names (q.getD i 0)
        = some ("threadIdx." ++ ["x", "y", "z"].getD (q.length - i - 1) "")) := by
  have hnd : ((ivAssignments node).map Prod.fst).Nodup := by
    rw [ivAssignments_fst]
    exact hnodup
  have hfr : ∀ p ∈ ivAssignments node, st.names p.1 = none := by
    intro p hp
    apply hfresh
    rw [← ivAssignments_fst]
    exact List.mem_map_of_mem Prod.fst hp
  have hsplit : parallelIVsList node = ivs :: (parallelIVsList node).drop 1 := by
    rw [hnode]
    exact parallelIVsList_eq_cons ivs body
  have hassign := ivAssignments_eq node ivs ((parallelIVsList node).drop 1) hsplit
  constructor
  · intro i hi _
    apply ext_collectVars io node st
    rw [pass1_eq_assignAll]
    apply assignAll_mem _ _ _ _ hnd hfr
    rw [hassign]
    exact List.mem_append_left _ (ivPairsOf_mem "blockIdx." ivs i hi)
  · intro q hq i hi _
    apply ext_collectVars io node st
    rw [pass1_eq_assignAll]
    apply assignAll_mem _ _ _ _ hnd hfr
    rw [hassign]
    apply List.mem_append_right
    apply List.mem_flatten.2
    exact ⟨ivPairsOf "threadIdx." q, List.mem_map_of_mem _ hq,
      ivPairsOf_mem "threadIdx." q i hi⟩

/-- Witness for C6: the two outer induction variables become `blockIdx.y` and
`blockIdx.x` (reverse position), the nested one `threadIdx.x`. -/
theorem C6_witness :
    ((parallelIVsList c6Node).flatten).Nodup
    ∧ (collectVars id c6Node ⟨0, 0, fun _ => none, ""⟩).2.names 1 = some "blockIdx.y"
    ∧ (collectVars id c6Node ⟨0, 0, fun _ => none, ""⟩).2.names 2 = some "blockIdx.x"
    ∧ (collectVars id c6Node ⟨0, 0, fun _ => none, ""⟩).2.names 3 = some "threadIdx.x" := by
  have h := C6_parallel_iv_naming id c6Node [1, 2]
    [ .mk (.parallelOp [3]) [ .mk .yieldOp [] ], .mk .yieldOp [] ]
    ⟨0, 0, fun _ => none, ""⟩ rfl (by decide) (fun v _ => rfl)
  refine ⟨by decide, ?_, ?_, ?_⟩
  · exact h.1 0 (by norm_num) (by norm_num)
  · exact h.1 1 (by norm_num) (by norm_num)
  · exact h.2 [3] (by decide) 0 (by norm_num) (by norm_num)

/-- Witness for C10: value 7, allocated inside `c10Node`, is not captured. -/
theorem C10_witness :
    7 ∈ allocResults c10Node
    ∧ 7 ∉ (collectVars id c10Node ⟨0, 0, fun _ => none, ""⟩).1 :=
  ⟨by decide,
   C10_alloc_results_not_captured id c10Node ⟨0, 0, fun _ => none, ""⟩ 7
     (fun l => List.Perm.refl l) (by decide)⟩

/-! ## Claim C8: deterministic output, no reliance on unordered iteration -/

theorem aux_enumFrom_pairwise {α : Type _} (l : List α) (k : Nat) :
    List.Pairwise (fun a b => a.1 < b.1) (List.enumFrom k l) := by
  induction l generalizing k with
  | nil => exact List.Pairwise.nil
  | cons x xs ih =>
    refine List.Pairwise.cons ?_ (ih (k + 1))
    intro q hq
    obtain ⟨i, y⟩ := q
    have := List.mem_enumFrom hq
    simp only []
    omega

theorem aux_pairs_pairwise (l : List Nat) :
    List.Pairwise (fun a b => a.2 < b.2) (l.enum.map (fun q => (q.2, q.1))) := by
  rw [List.pairwise_map]
  exact aux_enumFrom_pairwise l 0

theorem aux_sort_unique (l₁ l₂ : List (Nat × Nat)) (hperm : l₁.Perm l₂)
    (hsorted : List.Pairwise (fun a b : Nat × Nat => a.2 < b.2) l₂) :
    List.insertionSort (fun a b => a.2 ≤ b.2) l₁ = l₂ := by
  haveI ht : IsTotal (Nat × Nat) (fun a b => a.2 ≤ b.2) :=
    ⟨fun a b => Nat.le_total a.2 b.2⟩
  haveI htr : IsTrans (Nat × Nat) (fun a b => a.2 ≤ b.2) :=
    ⟨fun _ _ _ h1 h2 => le_trans h1 h2⟩
  haveI has : IsAntisymm (Nat × Nat) (fun a b : Nat × Nat => a.2 < b.2) :=
    ⟨fun _ _ h1 h2 => absurd h2 (not_lt.2 (le_of_lt h1))⟩
  have hs : List.Sorted (fun a b => a.2 ≤ b.2)
      (List.insertionSort (fun a b => a.2 ≤ b.2) l₁) :=
    List.sorted_insertionSort _ l₁
  have hp : (List.insertionSort (fun a b => a.2 ≤ b.2) l₁).Perm l₂ :=
    (List.perm_insertionSort _ l₁).trans hperm
  have hne2 : List.Pairwise (fun a b : Nat × Nat => a.2 ≠ b.2) l₂ :=
    hsorted.imp (fun h => Nat.ne_of_lt h)
  have hnd2 : (l₂.map Prod.snd).Nodup := List.pairwise_map.2 hne2
  have hnds : ((List.insertionSort (fun a b => a.2 ≤ b.2) l₁).map Prod.snd).Nodup :=
    ((hp.map Prod.snd).nodup_iff).2 hnd2
  have hspair : List.Pairwise (fun a b : Nat × Nat => a.2 ≠ b.2)
      (List.insertionSort (fun a b => a.2 ≤ b.2) l₁) :=
    List.pairwise_map.1 hnds
  have hlt : List.Sorted (fun a b : Nat × Nat => a.2 < b.2)
      (List.insertionSort (fun a b => a.2 ≤ b.2) l₁) :=
    (hs.and hspair).imp (fun h => lt_of_le_of_ne h.1 h.2)
  exact List.eq_of_perm_of_sorted hp hlt hsorted

theorem collectVars_io_eq (io : List (Nat × Nat) → List (Nat × Nat))
    (hio : ∀ l : List (Nat × Nat), (io l).Perm l) (node : Node) (st : St) :
    collectVars io node st = collectVars id node st := by
  unfold collectVars
  dsimp only
  simp only [id_eq]
  have hpw := aux_pairs_pairwise
    ((captureAll node st.varCounter (namesPrefix node st.names)).captured)
  rw [aux_sort_unique
      (io ((captureAll node st.varCounter (namesPrefix node st.names)).captured.enum.map
        (fun q => (q.2, q.1))))
      ((captureAll node st.varCounter (namesPrefix node st.names)).captured.enum.map
        (fun q => (q.2, q.1)))
      (hio _) hpw,
    aux_sort_unique
      ((captureAll node st.varCounter (namesPrefix node st.names)).captured.enum.map
        (fun q => (q.2, q.1)))
      ((captureAll node st.varCounter (namesPrefix node st.names)).captured.enum.map
        (fun q => (q.2, q.1)))
      (List.Perm.refl _) hpw]

theorem emitParallel_io_eq (io : List (Nat × Nat) → List (Nat × Nat))
    (hio : ∀ l : List (Nat × Nat), (io l).Perm l) (tyOf : Nat → MemRefT)
    (D : Node → List Int) (ind : Nat) (node : Node) (st : St) :
    emitParallel io tyOf D ind node st = emitParallel id tyOf D ind node st := by
  unfold emitParallel
  rw [collectVars_io_eq io hio]

theorem emitFuncOps_io_eq (io : List (Nat × Nat) → List (Nat × Nat))
    (hio : ∀ l : List (Nat × Nat), (io l).Perm l) (tyOf : Nat → MemRefT)
    (D : Node → List Int) (f : List Node) (st : St) :
    emitFuncOps io tyOf D f st = emitFuncOps id tyOf D f st := by
  induction f generalizing st with
  | nil => rfl
  | cons n ns ih =>
    obtain ⟨o, b⟩ := n
    cases o
    case parallelOp ivs =>
      simp only [emitFuncOps, Node.op]
      rw [emitParallel_io_eq io hio]
      cases emitParallel id tyOf D 0 (.mk (.parallelOp ivs) b) st with
      | none => rfl
      | some st2 => exact ih st2
    all_goals simp only [emitFuncOps, Node.op]
    all_goals exact ih st

theorem emitModule_io_eq (io : List (Nat × Nat) → List (Nat × Nat))
    (hio : ∀ l : List (Nat × Nat), (io l).Perm l) (tyOf : Nat → MemRefT)
    (D : Node → List Int) (m : List (List Node)) (st : St) :
    emitModule io tyOf D m st = emitModule id tyOf D m st := by
  induction m generalizing st with
  | nil => rfl
  | cons f fs ih =>
    simp only [emitModule]
    rw [emitFuncOps_io_eq io hio]
    cases emitFuncOps id tyOf D f st with
    | none => rfl
    | some st2 => exact ih st2

/-- C8: for a fixed input module, two generation runs produce identical
output: `CUDAGen` resets the symbol table, the text buffer and the naming
counters at the start of each full-module generation (so the incoming global
states `s1`, `s2` are irrelevant), and the only unordered iteration — the
walk over the pointer-keyed `outsidesVars` map, modelled by the oracles
`io1`, `io2` — is neutralised by the sort on insertion ids, so any two map
iteration orders give byte-identical text. -/
theorem C8_deterministic_output (tyOf : Nat → MemRefT) (D : Node → List Int)
    (m : List (List Node)) (s1 s2 : St)
    (io1 io2 : List (Nat × Nat) → List (Nat × Nat))
    (h1 : ∀ l : List (Nat × Nat), (io1 l).Perm l)
    (h2 : ∀ l : List (Nat × Nat), (io2 l).Perm l) :
    CUDAGen io1 tyOf D m s1 = CUDAGen io2 tyOf D m s2 := by
  unfold CUDAGen
  dsimp only
  rw [emitModule_io_eq io1 h1, emitModule_io_eq io2 h2]

/-- Witness for C8: a run from a dirty global state with the identity map
order equals a run from the clean state with the reversed map order. -/
theorem C8_witness :
    CUDAGen id c8Ty (fun _ => [8]) [[c8Node]] ⟨5, 7, fun _ => some "junk", "junk"⟩
      = CUDAGen List.reverse c8Ty (fun _ => [8]) [[c8Node]] ⟨0, 0, fun _ => none, ""⟩ :=
  C8_deterministic_output c8Ty (fun _ => [8]) [[c8Node]]
    ⟨5, 7, fun _ => some "junk", "junk"⟩ ⟨0, 0, fun _ => none, ""⟩ id List.reverse
    (fun l => List.Perm.refl l) (fun l => List.reverse_perm l)

theorem aux_contains_iff (l : List Nat) (a : Nat) : l.contains a = true ↔ a ∈ l := by
  simp

theorem dedupInto_append (acc a b : List Nat) :
    dedupInto acc (a ++ b) = dedupInto (dedupInto acc a) b := by
  unfold dedupInto
  rw [List.foldl_append]

theorem dedupInto_single (acc : List Nat) (m : Nat) :
    dedupInto acc [m] = if acc.contains m then acc else acc ++ [m] := rfl

theorem dedupInto_subset (acc l : List Nat) (x : Nat) (h : x ∈ dedupInto acc l) :
    x ∈ acc ∨ x ∈ l := by
  induction l generalizing acc with
  | nil => exact Or.inl h
  | cons a l ih =>
    have he : dedupInto acc (a :: l)
        = dedupInto (if acc.contains a then acc else acc ++ [a]) l := rfl
    rw [he] at h
    rcases ih _ h with h1 | h1
    · split at h1
      · exact Or.inl h1
      · rcases List.mem_append.1 h1 with h2 | h2
        · exact Or.inl h2
        · exact Or.inr (by simpa using Or.inl (List.mem_singleton.1 h2))
    · exact Or.inr (List.mem_cons_of_mem a h1)

theorem captureOne_inv (n4 : Names) (R P : List Nat) (cs : CSt) (mem : Nat)
    (hInv : CapInv n4 R P cs) (hmR : mem ∉ R) :
    CapInv n4 R (P ++ [mem]) (captureOne cs mem) := by
  obtain ⟨h1, h2⟩ := hInv
  have hfa : dedupFirst ((P ++ [mem]).filter (fun m => (n4 m).isNone))
      = dedupInto (dedupFirst (P.filter (fun m => (n4 m).isNone)))
          ([mem].filter (fun m => (n4 m).isNone)) := by
    unfold dedupFirst
    rw [List.filter_append, dedupInto_append]
  by_cases hn : (cs.names mem).isSome
  · have hcOne : captureOne cs mem = cs := by
      unfold captureOne
      rw [if_pos hn]
    rw [hcOne]
    refine ⟨h1, ?_⟩
    have hcase : (n4 mem).isSome ∨ mem ∈ cs.captured := by
      rcases (h1 mem).1 hn with h | h | h
      · exact Or.inl h
      · exact Or.inr h
      · exact absurd h hmR
    rcases hcase with hc | hc
    · have hno : (n4 mem).isNone = false := by
        obtain ⟨s, hs⟩ := Option.isSome_iff_exists.1 hc
        simp [hs]
      have hf : [mem].filter (fun m => (n4 m).isNone) = [] := by
        simp [List.filter_cons, hno]
      rw [hfa, hf]
      exact h2
    · have hmemP : mem ∈ P.filter (fun m => (n4 m).isNone) := by
        rcases dedupInto_subset [] _ mem (h2 ▸ hc) with h | h
        · cases h
        · exact h
      have hn4 : (n4 mem).isNone = true := (List.mem_filter.1 hmemP).2
      have hf : [mem].filter (fun m => (n4 m).isNone) = [mem] := by
        simp [List.filter_cons, hn4]
      rw [hfa, hf, dedupInto_single, ← h2, if_pos ((aux_contains_iff _ _).2 hc)]
  · have hnc : ¬ mem ∈ cs.captured := by
      intro hc
      exact hn ((h1 mem).2 (Or.inr (Or.inl hc)))
    have hn4 : (n4 mem).isNone = true := by
      cases hm : n4 mem with
      | none => rfl
      | some s =>
        exact absurd ((h1 mem).2 (Or.inl (by simp [hm]))) hn
    have hcb : cs.captured.contains mem = false := by
      cases hcb : cs.captured.contains mem with
      | false => rfl
      | true => exact absurd ((aux_contains_iff _ _).1 hcb) hnc
    have hcOne : captureOne cs mem =
        { varCounter := cs.varCounter + 1,
          names := (setValueName cs.names mem ("arg" ++ toString cs.varCounter)).2,
          captured := cs.captured ++ [mem] } := by
      unfold captureOne
      rw [if_neg hn, if_neg (by rw [hcb]; simp)]
    rw [hcOne]
    constructor
    · intro v
      dsimp only
      by_cases hv : v = mem
      · subst hv
        constructor
        · intro _
          exact Or.inr (Or.inl (by simp))
        · intro _
          exact setValueName_isSome_self cs.names v _
      · rw [setValueName_other cs.names mem _ v hv]
        rw [h1 v]
        constructor
        · rintro (h | h | h)
          · exact Or.inl h
          · exact Or.inr (Or.inl (List.mem_append_left _ h))
          · exact Or.inr (Or.inr h)
        · rintro (h | h | h)
          · exact Or.inl h
          · rcases List.mem_append.1 h with h' | h'
            · exact Or.inr (Or.inl h')
            · exact absurd (by simpa using h') hv
          · exact Or.inr (Or.inr h)
    · dsimp only
      have hf : [mem].filter (fun m => (n4 m).isNone) = [mem] := by
        simp [List.filter, hn4]
      rw [hfa, hf, dedupInto_single, ← h2, if_neg (by rw [hcb]; simp)]

theorem nameResults_names_isSome (mk : Nat → String) (p : Names × Nat)
    (rs : List Nat) (v : Nat) :
    ((nameResults mk p rs).1 v).isSome ↔ ((p.1 v).isSome ∨ v ∈ rs) := by
  induction rs generalizing p with
  | nil => simp [nameResults]
  | cons r rest ih =>
    rw [nameResults_cons, ih]
    dsimp only
    by_cases hv : v = r
    · subst hv
      simp only [List.mem_cons, true_or, or_true, iff_true]
      exact Or.inl (setValueName_isSome_self p.1 v (mk p.2))
    · rw [setValueName_other p.1 r (mk p.2) v hv]
      simp [List.mem_cons, hv]

theorem capItem_inv (n4 : Names) (R P : List Nat) (mk : Nat → String)
    (p : CSt × Nat) (item : Nat × List Nat)
    (hInv : CapInv n4 R P p.1) (hmR : item.1 ∉ R) :
    CapInv n4 (R ++ item.2) (P ++ [item.1]) (capItem mk p item).1 := by
  obtain ⟨h1, h2⟩ := captureOne_inv n4 R P p.1 item.1 hInv hmR
  unfold capItem
  dsimp only
  constructor
  · intro v
    rw [nameResults_names_isSome, h1 v]
    simp only [List.mem_append]
    tauto
  · exact h2

theorem capturePass_inv (n4 : Names) (mk : Nat → String)
    (items : List (Nat × List Nat)) (p : CSt × Nat) (R P : List Nat)
    (hInv : CapInv n4 R P p.1)
    (hdisj : ∀ it ∈ items, it.1 ∉ R ∧ ∀ it2 ∈ items, it.1 ∉ it2.2) :
    CapInv n4 (R ++ (items.map Prod.snd).flatten) (P ++ items.map Prod.fst)
      (capturePass mk items p).1 := by
  induction items generalizing p R P with
  | nil => simpa using hInv
  | cons it rest ih =>
    have hstep := capItem_inv n4 R P mk p it hInv (hdisj it (by simp)).1
    have hd' : ∀ it2 ∈ rest, it2.1 ∉ R ++ it.2 ∧ ∀ it3 ∈ rest, it2.1 ∉ it3.2 := by
      intro it2 h2
      obtain ⟨ha, hb⟩ := hdisj it2 (List.mem_cons_of_mem it h2)
      refine ⟨?_, fun it3 h3 => hb it3 (List.mem_cons_of_mem it h3)⟩
      intro hmem
      rcases List.mem_append.1 hmem with h | h
      · exact ha h
      · exact hb it (List.mem_cons_self it rest) h
    have hrec := ih (capItem mk p it) (R ++ it.2) (P ++ [it.1]) hstep hd'
    have e1 : (R ++ it.2) ++ (rest.map Prod.snd).flatten
        = R ++ ((it :: rest).map Prod.snd).flatten := by
      rw [List.map_cons, List.flatten_cons, List.append_assoc]
    have e2 : (P ++ [it.1]) ++ rest.map Prod.fst
        = P ++ (it :: rest).map Prod.fst := by
      rw [List.map_cons, List.append_assoc]
      rfl
    rw [e1, e2] at hrec
    exact hrec

theorem aux_storeItems_fst (l : List Nat) :
    (l.map (fun m => (m, ([] : List Nat)))).map Prod.fst = l := by
  rw [List.map_map]
  show l.map (fun m => m) = l
  exact List.map_id' l

theorem aux_storeItems_snd (l : List Nat) :
    ((l.map (fun m => (m, ([] : List Nat)))).map Prod.snd).flatten = [] := by
  rw [List.map_map]
  show (l.map (fun _ => ([] : List Nat))).flatten = []
  induction l with
  | nil => rfl
  | cons a l ih =>
    simp only [List.map_cons, List.flatten_cons, List.nil_append]
    exact ih

theorem mem_seqMems_vec (node : Node) (it : Nat × List Nat)
    (h : it ∈ vecLoadItems node) : it.1 ∈ seqMems node := by
  unfold seqMems
  have hm := List.mem_map_of_mem Prod.fst h
  simp only [List.mem_append]
  tauto

theorem mem_seqMems_aff (node : Node) (it : Nat × List Nat)
    (h : it ∈ affLoadItems node) : it.1 ∈ seqMems node := by
  unfold seqMems
  have hm := List.mem_map_of_mem Prod.fst h
  simp only [List.mem_append]
  tauto

theorem mem_seqMems_memload (node : Node) (it : Nat × List Nat)
    (h : it ∈ memLoadItems node) : it.1 ∈ seqMems node := by
  unfold seqMems
  have hm := List.mem_map_of_mem Prod.fst h
  simp only [List.mem_append]
  tauto

theorem mem_seqMems_affstore (node : Node) (m : Nat)
    (h : m ∈ affStoreMems node) : m ∈ seqMems node := by
  unfold seqMems
  simp only [List.mem_append]
  tauto

theorem mem_seqMems_vecstore (node : Node) (m : Nat)
    (h : m ∈ vecStoreMems node) : m ∈ seqMems node := by
  unfold seqMems
  simp only [List.mem_append]
  tauto

theorem mem_capResults_vec (node : Node) (it : Nat × List Nat)
    (h : it ∈ vecLoadItems node) (r : Nat) (hr : r ∈ it.2) :
    r ∈ allCapResults node := by
  unfold allCapResults
  have hm : r ∈ ((vecLoadItems node).map Prod.snd).flatten :=
    List.mem_flatten.2 ⟨it.2, List.mem_map_of_mem Prod.snd h, hr⟩
  simp only [List.mem_append]
  tauto

theorem mem_capResults_aff (node : Node) (it : Nat × List Nat)
    (h : it ∈ affLoadItems node) (r : Nat) (hr : r ∈ it.2) :
    r ∈ allCapResults node := by
  unfold allCapResults
  have hm : r ∈ ((affLoadItems node).map Prod.snd).flatten :=
    List.mem_flatten.2 ⟨it.2, List.mem_map_of_mem Prod.snd h, hr⟩
  simp only [List.mem_append]
  tauto

theorem mem_capResults_memload (node : Node) (it : Nat × List Nat)
    (h : it ∈ memLoadItems node) (r : Nat) (hr : r ∈ it.2) :
    r ∈ allCapResults node := by
  unfold allCapResults
  have hm : r ∈ ((memLoadItems node).map Prod.snd).flatten :=
    List.mem_flatten.2 ⟨it.2, List.mem_map_of_mem Prod.snd h, hr⟩
  simp only [List.mem_append]
  tauto

theorem captureAll_inv (node : Node) (vc : Nat) (n4 : Names)
    (hdisj : ∀ m ∈ seqMems node, m ∉ allCapResults node) :
    (captureAll node vc n4).captured
      = dedupFirst ((seqMems node).filter (fun m => (n4 m).isNone)) := by
  unfold captureAll
  dsimp only
  have base : CapInv n4 [] [] ⟨vc, n4, []⟩ := by
    refine ⟨fun v => ?_, rfl⟩
    constructor
    · intro h
      exact Or.inl h
    · rintro (h | h | h)
      · exact h
      · cases h
      · cases h
  have hd5 : ∀ it ∈ vecLoadItems node, it.1 ∉ ([] : List Nat)
      ∧ ∀ it2 ∈ vecLoadItems node, it.1 ∉ it2.2 := by
    intro it hit
    refine ⟨by simp, fun it2 h2 hr =>
      hdisj it.1 (mem_seqMems_vec node it hit) (mem_capResults_vec node it2 h2 it.1 hr)⟩
  have s5 := capturePass_inv n4 (fun c => "vec" ++ toString c) (vecLoadItems node)
    (⟨vc, n4, []⟩, 0) [] [] base hd5
  have hRv : ∀ r ∈ ([] : List Nat) ++ ((vecLoadItems node).map Prod.snd).flatten,
      r ∈ allCapResults node := by
    intro r hr
    rw [List.nil_append] at hr
    unfold allCapResults
    simp only [List.mem_append]
    tauto
  have hd6a : ∀ it ∈ affLoadItems node,
      it.1 ∉ ([] : List Nat) ++ ((vecLoadItems node).map Prod.snd).flatten
      ∧ ∀ it2 ∈ affLoadItems node, it.1 ∉ it2.2 := by
    intro it hit
    refine ⟨fun hr => hdisj it.1 (mem_seqMems_aff node it hit) (hRv it.1 hr),
      fun it2 h2 hr =>
        hdisj it.1 (mem_seqMems_aff node it hit) (mem_capResults_aff node it2 h2 it.1 hr)⟩
  have s6a := capturePass_inv n4 (fun c => "R" ++ toString c) (affLoadItems node)
    ((capturePass (fun c => "vec" ++ toString c) (vecLoadItems node)
      (⟨vc, n4, []⟩, 0)).1, 0)
    ([] ++ ((vecLoadItems node).map Prod.snd).flatten)
    ([] ++ (vecLoadItems node).map Prod.fst) s5 hd6a
  have hRa : ∀ r ∈ ([] : List Nat) ++ ((vecLoadItems node).map Prod.snd).flatten
      ++ ((affLoadItems node).map Prod.snd).flatten, r ∈ allCapResults node := by
    intro r hr
    unfold allCapResults
    simp only [List.nil_append, List.mem_append] at hr
    simp only [List.mem_append]
    tauto
  have hd6b : ∀ it ∈ memLoadItems node,
      it.1 ∉ ([] : List Nat) ++ ((vecLoadItems node).map Prod.snd).flatten
        ++ ((affLoadItems node).map Prod.snd).flatten
      ∧ ∀ it2 ∈ memLoadItems node, it.1 ∉ it2.2 := by
    intro it hit
    refine ⟨fun hr => hdisj it.1 (mem_seqMems_memload node it hit) (hRa it.1 hr),
      fun it2 h2 hr => hdisj it.1 (mem_seqMems_memload node it hit)
        (mem_capResults_memload node it2 h2 it.1 hr)⟩
  have s6b := capturePass_inv n4 (fun c => "R" ++ toString c) (memLoadItems node)
    ((capturePass (fun c => "R" ++ toString c) (affLoadItems node)
      ((capturePass (fun c => "vec" ++ toString c) (vecLoadItems node)
        (⟨vc, n4, []⟩, 0)).1, 0)).1,
     (capturePass (fun c => "R" ++ toString c) (affLoadItems node)
      ((capturePass (fun c => "vec" ++ toString c) (vecLoadItems node)
        (⟨vc, n4, []⟩, 0)).1, 0)).2)
    ([] ++ ((vecLoadItems node).map Prod.snd).flatten
      ++ ((affLoadItems node).map Prod.snd).flatten)
    ([] ++ (vecLoadItems node).map Prod.fst ++ (affLoadItems node).map Prod.fst)
    s6a hd6b
  have hRm : ∀ r ∈ ([] : List Nat) ++ ((vecLoadItems node).map Prod.snd).flatten
      ++ ((affLoadItems node).map Prod.snd).flatten
      ++ ((memLoadItems node).map Prod.snd).flatten, r ∈ allCapResults node := by
    intro r hr
    unfold allCapResults
    simp only [List.nil_append, List.mem_append] at hr
    simp only [List.mem_append]
    tauto
  have hd7a : ∀ it ∈ (affStoreMems node).map (fun m => (m, ([] : List Nat))),
      it.1 ∉ ([] : List Nat) ++ ((vecLoadItems node).map Prod.snd).flatten
        ++ ((affLoadItems node).map Prod.snd).flatten
        ++ ((memLoadItems node).map Prod.snd).flatten
      ∧ ∀ it2 ∈ (affStoreMems node).map (fun m => (m, ([] : List Nat))),
          it.1 ∉ it2.2 := by
    intro it hit
    obtain ⟨m0, hm0, hm0e⟩ := List.mem_map.1 hit
    refine ⟨fun hr => hdisj it.1
        (by rw [← hm0e]; exact mem_seqMems_affstore node m0 hm0) (hRm it.1 hr),
      fun it2 h2 hr => ?_⟩
    obtain ⟨m1, _, hm1e⟩ := List.mem_map.1 h2
    rw [← hm1e] at hr
    cases hr
  have s7a := capturePass_inv n4 (fun _ => "")
    ((affStoreMems node).map (fun m => (m, [])))
    ((capturePass (fun c => "R" ++ toString c) (memLoadItems node)
      ((capturePass (fun c => "R" ++ toString c) (affLoadItems node)
        ((capturePass (fun c => "vec" ++ toString c) (vecLoadItems node)
          (⟨vc, n4, []⟩, 0)).1, 0)).1,
       (capturePass (fun c => "R" ++ toString c) (affLoadItems node)
        ((capturePass (fun c => "vec" ++ toString c) (vecLoadItems node)
          (⟨vc, n4, []⟩, 0)).1, 0)).2)).1, 0)
    ([] ++ ((vecLoadItems node).map Prod.snd).flatten
      ++ ((affLoadItems node).map Prod.snd).flatten
      ++ ((memLoadItems node).map Prod.snd).flatten)
    ([] ++ (vecLoadItems node).map Prod.fst ++ (affLoadItems node).map Prod.fst
      ++ (memLoadItems node).map Prod.fst)
    s6b hd7a
  have hd7b : ∀ it ∈ (vecStoreMems node).map (fun m => (m, ([] : List Nat))),
      it.1 ∉ ([] : List Nat) ++ ((vecLoadItems node).map Prod.snd).flatten
        ++ ((affLoadItems node).map Prod.snd).flatten
        ++ ((memLoadItems node).map Prod.snd).flatten
        ++ (((affStoreMems node).map (fun m => (m, ([] : List Nat)))).map
            Prod.snd).flatten
      ∧ ∀ it2 ∈ (vecStoreMems node).map (fun m => (m, ([] : List Nat))),
          it.1 ∉ it2.2 := by
    intro it hit
    obtain ⟨m0, hm0, hm0e⟩ := List.mem_map.1 hit
    refine ⟨fun hr => ?_, fun it2 h2 hr => ?_⟩
    · rw [aux_storeItems_snd, List.append_nil] at hr
      exact hdisj it.1
        (by rw [← hm0e]; exact mem_seqMems_vecstore node m0 hm0) (hRm it.1 hr)
    · obtain ⟨m1, _, hm1e⟩ := List.mem_map.1 h2
      rw [← hm1e] at hr
      cases hr
  have s7b := capturePass_inv n4 (fun _ => "")
    ((vecStoreMems node).map (fun m => (m, [])))
    ((capturePass (fun _ => "") ((affStoreMems node).map (fun m => (m, [])))
      ((capturePass (fun c => "R" ++ toString c) (memLoadItems node)
        ((capturePass (fun c => "R" ++ toString c) (affLoadItems node)
          ((capturePass (fun c => "vec" ++ toString c) (vecLoadItems node)
            (⟨vc, n4, []⟩, 0)).1, 0)).1,
         (capturePass (fun c => "R" ++ toString c) (affLoadItems node)
          ((capturePass (fun c => "vec" ++ toString c) (vecLoadItems node)
            (⟨vc, n4, []⟩, 0)).1, 0)).2)).1, 0)).1, 0)
    ([] ++ ((vecLoadItems node).map Prod.snd).flatten
      ++ ((affLoadItems node).map Prod.snd).flatten
      ++ ((memLoadItems node).map Prod.snd).flatten
      ++ (((affStoreMems node).map (fun m => (m, ([] : List Nat)))).map
          Prod.snd).flatten)
    ([] ++ (vecLoadItems node).map Prod.fst ++ (affLoadItems node).map Prod.fst
      ++ (memLoadItems node).map Prod.fst
      ++ ((affStoreMems node).map (fun m => (m, ([] : List Nat)))).map Prod.fst)
    s7a hd7b
  have hPeq : ([] : List Nat) ++ (vecLoadItems node).map Prod.fst
      ++ (affLoadItems node).map Prod.fst
      ++ (memLoadItems node).map Prod.fst
      ++ ((affStoreMems node).map (fun m => (m, ([] : List Nat)))).map Prod.fst
      ++ ((vecStoreMems node).map (fun m => (m, ([] : List Nat)))).map Prod.fst
      = seqMems node := by
    rw [aux_storeItems_fst, aux_storeItems_fst]
    unfold seqMems
    simp [List.append_assoc]
  rw [hPeq] at s7b
  exact s7b.2

theorem collectVars_fst (io : List (Nat × Nat) → List (Nat × Nat))
    (hio : ∀ l : List (Nat × Nat), (io l).Perm l) (node : Node) (st : St) :
    (collectVars io node st).1
      = (captureAll node st.varCounter (namesPrefix node st.names)).captured := by
  unfold collectVars
  dsimp only
  rw [aux_sort_unique
      (io ((captureAll node st.varCounter (namesPrefix node st.names)).captured.enum.map
        (fun q => (q.2, q.1))))
      ((captureAll node st.varCounter (namesPrefix node st.names)).captured.enum.map
        (fun q => (q.2, q.1)))
      (hio _) (aux_pairs_pairwise _)]
  rw [List.map_map]
  show ((captureAll node st.varCounter (namesPrefix node st.names)).captured.enum.map
    Prod.snd) = _
  exact List.enum_map_snd _

/-- C2 (amended): the kernel's captured free variables are the load/store
memref operands that are unnamed after naming passes 1-4, in first-encounter
order over the five capturing passes — all vector loads scanned before all
affine-indexed scalar loads, before all plain-indexed scalar loads, before
all affine stores, before all vector stores, each pass in pre-order (the two
scalar-load forms and the two store forms are separate passes, not one
combined category scan).  The hypothesis `hdisj` states that no memref
operand coincides with a load result value (true of any well-typed input:
memrefs are not scalars). -/
theorem C2_capture_order (io : List (Nat × Nat) → List (Nat × Nat))
    (node : Node) (st : St)
    (hio : ∀ l : List (Nat × Nat), (io l).Perm l)
    (hdisj : ∀ m ∈ seqMems node, m ∉ allCapResults node) :
    (collectVars io node st).1 =
      dedupFirst ((seqMems node).filter
        (fun m => ((namesPrefix node st.names) m).isNone)) := by
  rw [collectVars_fst io hio node st]
  exact captureAll_inv node st.varCounter (namesPrefix node st.names) hdisj

/-- Counterexample to C2 as stated: on `c2Node` the source captures the
affine-load memref 11 before the plain-load memref 10 (the affine-load walk
runs first, CUDA.cc lines 242 and 256), while the claim's combined
scalar-load category in pre-order would capture 10 first. -/
theorem C2_counterexample :
    (collectVars id c2Node ⟨0, 0, fun _ => none, ""⟩).1 = [11, 10]
    ∧ claimCaptureOrder c2Node ⟨0, 0, fun _ => none, ""⟩ = [10, 11]
    ∧ ([11, 10] : List Nat) ≠ [10, 11] :=
  ⟨rfl, rfl, by decide⟩

/-- Witness for C2 (amended): on `c2wNode` the captured list is
`[10, 11, 12]` — the vector-load memref first, then the scalar-load memref,
then the store memref. -/
theorem C2_witness :
    (∀ m ∈ seqMems c2wNode, m ∉ allCapResults c2wNode)
    ∧ (collectVars id c2wNode ⟨0, 0, fun _ => none, ""⟩).1
        = dedupFirst ((seqMems c2wNode).filter
            (fun m => ((namesPrefix c2wNode (fun _ => none)) m).isNone))
    ∧ (collectVars id c2wNode ⟨0, 0, fun _ => none, ""⟩).1 = [10, 11, 12] :=
  ⟨by decide,
   C2_capture_order id c2wNode ⟨0, 0, fun _ => none, ""⟩
     (fun l => List.Perm.refl l) (by decide),
   rfl⟩

end KernelCodeGen
